import Mathlib

/-!
Verification of the `dev_tool` Python package of CPlusPlusQT6Skel.

The Python sources under `src/python/dev_tool/` are shallowly embedded as
Lean functions.  Python strings are Lean `String`s, Python `None`-able
strings are `Option String` (with Python truthiness: `None` and `""` are
falsy), `pathlib.Path` values are modelled as their component lists
(`List String`), and the filesystem / environment-variable / subprocess
surface is abstracted into explicit record parameters, so every embedded
function is a pure, executable Lean function of its inputs.
-/

/-! ## Python value model

JSON values loaded by `json.loads`, and the values held by the settings
dictionaries of `dev_tool/config.py`.  Numbers are modelled as integers
(the settings machinery never stores fractional numbers).
-/

inductive PyVal where
  | none
  | str (s : String)
  | int (n : Int)
  | bool (b : Bool)
  | list (xs : List PyVal)
  | dict (kvs : List (String × PyVal))

mutual

/-- Python `repr` for the modelled values (escape-free strings are
rendered the way CPython renders them; escaping inside string literals is
not modelled, no claim depends on it). -/
def pyRepr : PyVal → String
  | PyVal.none => "None"
  | PyVal.str s => "'" ++ s ++ "'"
  | PyVal.int n => toString n
  | PyVal.bool true => "True"
  | PyVal.bool false => "False"
  | PyVal.list xs => "[" ++ String.intercalate ", " (pyReprList xs) ++ "]"
  | PyVal.dict kvs => "\x7b" ++ String.intercalate ", " (pyReprPairs kvs) ++ "\x7d"

def pyReprList : List PyVal → List String
  | [] => []
  | v :: rest => pyRepr v :: pyReprList rest

def pyReprPairs : List (String × PyVal) → List String
  | [] => []
  | (k, v) :: rest => ("'" ++ k ++ "': " ++ pyRepr v) :: pyReprPairs rest

end

/-- Python `str` applied to a modelled value. -/
def pyStr : PyVal → String
  | PyVal.str s => s
  | v => pyRepr v

/-- Python truthiness of an optional string (`None` and `""` are falsy). -/
def pyTruthy : Option String → Bool
  | Option.none => false
  | Option.some s => s ≠ ""

/-! ## VersionParser (`dev_tool/utils.py`) -/

/-- Numeric value of a digit run, as Python `int` computes it for a
string of decimal digits. -/
def digitsToNat (cs : List Char) : Nat :=
  cs.foldl (fun n c => 10 * n + (c.toNat - '0'.toNat)) 0

theorem length_dropWhile_le (p : Char → Bool) (l : List Char) :
    (l.dropWhile p).length ≤ l.length := by
  induction l with
  | nil => simp
  | cons a l ih =>
    rw [List.dropWhile_cons]
    by_cases h : p a = true
    · rw [if_pos h]
      simp only [List.length_cons]
      omega
    · rw [if_neg h]

/-- Left-to-right scan collecting maximal digit runs; `cur` is the
reversed run in progress.  Together with `findDigitRuns` this is the
shallow embedding of `re.findall(r"\d+", value)`. -/
def findDigitRunsGo : List Char → List Char → List (List Char)
  | [], cur => if cur.isEmpty then [] else [cur.reverse]
  | c :: rest, cur =>
    if c.isDigit then
      findDigitRunsGo rest (c :: cur)
    else if cur.isEmpty then
      findDigitRunsGo rest []
    else
      cur.reverse :: findDigitRunsGo rest []

/-- The maximal runs of decimal digits of a character list, in order. -/
def findDigitRuns (cs : List Char) : List (List Char) :=
  findDigitRunsGo cs []

/-- `utils.parse_version_string`: extract the numeric components of a
version-like string (all maximal digit runs, in order, as integers). -/
def parse_version_string (value : String) : List Nat :=
  (findDigitRuns value.data).map digitsToNat

/-- A second formulation of "maximal digit runs", by an independent
route: split the characters on every non-digit and keep the non-empty
chunks. -/
def digitRunsBySplit (cs : List Char) : List (List Char) :=
  (cs.splitOnP (fun c => !c.isDigit)).filter (fun r => !r.isEmpty)

theorem digitRunsBySplit_cons_nondigit (c : Char) (rest : List Char) (h : ¬ c.isDigit) :
    digitRunsBySplit (c :: rest) = digitRunsBySplit rest := by
  unfold digitRunsBySplit
  rw [List.splitOnP_cons]
  simp [h]

/-- On a string whose first character is a digit, splitting on non-digits
prepends the leading maximal digit run to the first chunk of the rest. -/
theorem splitOnP_cons_digit_run (cs : List Char) (h : cs.takeWhile Char.isDigit ≠ []) :
    cs.splitOnP (fun c => !c.isDigit) =
      List.modifyHead (fun t => cs.takeWhile Char.isDigit ++ t)
        ((cs.dropWhile Char.isDigit).splitOnP (fun c => !c.isDigit)) := by
  induction cs with
  | nil => exact absurd rfl h
  | cons c rest ih =>
    have hc : c.isDigit = true := by
      by_contra hc
      exact h (by rw [List.takeWhile_cons, if_neg (by simpa using hc)])
    rw [List.splitOnP_cons, List.takeWhile_cons, List.dropWhile_cons]
    rw [if_neg (by simp [hc]), if_pos hc, if_pos hc]
    by_cases hr : rest.takeWhile Char.isDigit = []
    · have hdrop : rest.dropWhile Char.isDigit = rest := by
        cases rest with
        | nil => rfl
        | cons r rs =>
          rw [List.takeWhile_cons] at hr
          by_cases hrd : r.isDigit = true
          · rw [if_pos hrd] at hr
            simp at hr
          · rw [List.dropWhile_cons, if_neg hrd]
      rw [hr, hdrop]
      rfl
    · rw [ih hr]
      obtain ⟨t, ts, hsp⟩ :
          ∃ t ts, (rest.dropWhile Char.isDigit).splitOnP (fun c => !c.isDigit) = t :: ts := by
        cases hx : (rest.dropWhile Char.isDigit).splitOnP (fun c => !c.isDigit) with
        | nil => exact absurd hx (List.splitOnP_ne_nil _ _)
        | cons t ts => exact ⟨t, ts, rfl⟩
      rw [hsp]
      simp

/-- After dropping the leading digits, the split on non-digits starts with
an empty chunk. -/
theorem splitOnP_dropWhile_head (l : List Char) :
    ∃ ts, (l.dropWhile Char.isDigit).splitOnP (fun c => !c.isDigit) = [] :: ts := by
  induction l with
  | nil => exact ⟨[], by simp [List.splitOnP_nil]⟩
  | cons c rest ih =>
    rw [List.dropWhile_cons]
    by_cases hc : c.isDigit = true
    · rw [if_pos hc]
      exact ih
    · rw [if_neg hc]
      exact ⟨rest.splitOnP (fun c => !c.isDigit), by rw [List.splitOnP_cons, if_pos (by simp [hc])]⟩

/-- Splitting a digit-headed list on non-digits isolates the leading
maximal digit run. -/
theorem digitRunsBySplit_cons_digit (c : Char) (rest : List Char) (hc : c.isDigit = true) :
    digitRunsBySplit (c :: rest) =
      (c :: rest.takeWhile Char.isDigit) :: digitRunsBySplit (rest.dropWhile Char.isDigit) := by
  unfold digitRunsBySplit
  have htw : (c :: rest).takeWhile Char.isDigit = c :: rest.takeWhile Char.isDigit := by
    rw [List.takeWhile_cons, if_pos hc]
  have hdw : (c :: rest).dropWhile Char.isDigit = rest.dropWhile Char.isDigit := by
    rw [List.dropWhile_cons, if_pos hc]
  rw [splitOnP_cons_digit_run (c :: rest) (by rw [htw]; simp), htw, hdw]
  obtain ⟨ts, hsp⟩ := splitOnP_dropWhile_head rest
  rw [hsp, List.modifyHead_cons, List.filter_cons, if_pos (by simp), List.filter_cons]
  simp

/-- The scanning collector agrees with the split-on-non-digits
formulation; the `cur` accumulator holds a reversed run in progress. -/
theorem findDigitRunsGo_spec (cs : List Char) :
    ∀ cur, findDigitRunsGo cs cur =
      if cur.isEmpty then digitRunsBySplit cs
      else (cur.reverse ++ cs.takeWhile Char.isDigit) ::
        digitRunsBySplit (cs.dropWhile Char.isDigit) := by
  induction cs with
  | nil =>
    intro cur
    cases cur with
    | nil => simp [findDigitRunsGo, digitRunsBySplit, List.splitOnP_nil]
    | cons a l => simp [findDigitRunsGo, digitRunsBySplit, List.splitOnP_nil]
  | cons c rest ih =>
    intro cur
    by_cases hc : c.isDigit = true
    · rw [findDigitRunsGo]
      rw [if_pos hc, ih (c :: cur)]
      cases cur with
      | nil =>
        simp only [List.isEmpty_cons, List.isEmpty_nil, if_true]
        rw [digitRunsBySplit_cons_digit c rest hc]
        simp
      | cons a l =>
        simp only [List.isEmpty_cons]
        rw [List.takeWhile_cons, List.dropWhile_cons, if_pos hc, if_pos hc]
        simp
    · rw [findDigitRunsGo]
      rw [if_neg (by simpa using hc)]
      cases cur with
      | nil =>
        rw [ih []]
        simp only [List.isEmpty_nil, if_true]
        rw [digitRunsBySplit_cons_nondigit c rest (by simpa using hc)]
      | cons a l =>
        rw [ih []]
        simp only [List.isEmpty_nil, List.isEmpty_cons, if_true, if_false]
        rw [List.takeWhile_cons, List.dropWhile_cons]
        simp [hc, digitRunsBySplit_cons_nondigit c rest (by simp [hc])]

/-- The scanner of `parse_version_string` extracts exactly the non-empty
chunks of the split on non-digits. -/
theorem findDigitRuns_eq_split (cs : List Char) :
    findDigitRuns cs = digitRunsBySplit cs := by
  rw [findDigitRuns, findDigitRunsGo_spec cs []]
  simp

theorem digitRunsBySplit_all_nondigit (cs : List Char) (h : ∀ c ∈ cs, ¬ c.isDigit) :
    digitRunsBySplit cs = [] := by
  induction cs with
  | nil => simp [digitRunsBySplit, List.splitOnP_nil]
  | cons c rest ih =>
    rw [digitRunsBySplit_cons_nondigit c rest (h c (by simp))]
    exact ih (fun x hx => h x (by simp [hx]))

theorem digitRunsBySplit_ne_nil (cs : List Char) (c : Char) (hc : c ∈ cs) (hd : c.isDigit) :
    digitRunsBySplit cs ≠ [] := by
  induction cs with
  | nil => simp at hc
  | cons a rest ih =>
    by_cases ha : a.isDigit = true
    · rw [digitRunsBySplit_cons_digit a rest ha]
      simp
    · rw [digitRunsBySplit_cons_nondigit a rest (by simpa using ha)]
      rcases List.mem_cons.mp hc with h | h
      · subst h
        exact absurd hd (by simpa using ha)
      · exact ih h

theorem takeWhile_append_pos (p : Char → Bool) (xs ys : List Char) (h : xs.dropWhile p ≠ []) :
    (xs ++ ys).takeWhile p = xs.takeWhile p := by
  induction xs with
  | nil => simp at h
  | cons x l ih =>
    rw [List.cons_append, List.takeWhile_cons, List.takeWhile_cons]
    by_cases hx : p x = true
    · rw [if_pos hx, if_pos hx]
      rw [List.dropWhile_cons, if_pos hx] at h
      rw [ih h]
    · rw [if_neg hx, if_neg hx]

theorem dropWhile_append_pos (p : Char → Bool) (xs ys : List Char) (h : xs.dropWhile p ≠ []) :
    (xs ++ ys).dropWhile p = xs.dropWhile p ++ ys := by
  induction xs with
  | nil => simp at h
  | cons x l ih =>
    rw [List.cons_append, List.dropWhile_cons, List.dropWhile_cons]
    by_cases hx : p x = true
    · rw [if_pos hx, if_pos hx]
      rw [List.dropWhile_cons, if_pos hx] at h
      exact ih h
    · rw [if_neg hx, if_neg hx]
      rfl

theorem takeWhile_append_all (p : Char → Bool) (xs ys : List Char) (h : ∀ x ∈ xs, p x = true) :
    (xs ++ ys).takeWhile p = xs ++ ys.takeWhile p := by
  induction xs with
  | nil => simp
  | cons x l ih =>
    rw [List.cons_append, List.takeWhile_cons, if_pos (h x (by simp))]
    rw [ih (fun a ha => h a (by simp [ha]))]
    rfl

theorem dropWhile_append_all (p : Char → Bool) (xs ys : List Char) (h : ∀ x ∈ xs, p x = true) :
    (xs ++ ys).dropWhile p = ys.dropWhile p := by
  induction xs with
  | nil => simp
  | cons x l ih =>
    rw [List.cons_append, List.dropWhile_cons, if_pos (h x (by simp))]
    exact ih (fun a ha => h a (by simp [ha]))

/-- Appending non-digit characters does not change the digit runs. -/
theorem digitRunsBySplit_append_nondigit_aux :
    ∀ (n : Nat) (cs ds : List Char), cs.length ≤ n → (∀ d ∈ ds, ¬ d.isDigit) →
      digitRunsBySplit (cs ++ ds) = digitRunsBySplit cs := by
  intro n
  induction n with
  | zero =>
    intro cs ds hl hd
    cases cs with
    | nil => simpa using digitRunsBySplit_all_nondigit ds hd
    | cons c rest => simp at hl
  | succ n ih =>
    intro cs ds hl hd
    cases cs with
    | nil => simpa using digitRunsBySplit_all_nondigit ds hd
    | cons c rest =>
      by_cases hc : c.isDigit = true
      · rw [List.cons_append, digitRunsBySplit_cons_digit c _ hc,
          digitRunsBySplit_cons_digit c rest hc]
        by_cases hrest : rest.dropWhile Char.isDigit = []
        · have hall : ∀ x ∈ rest, Char.isDigit x = true := List.dropWhile_eq_nil_iff.mp hrest
          rw [takeWhile_append_all Char.isDigit rest ds hall,
            dropWhile_append_all Char.isDigit rest ds hall, hrest]
          have hdt : ds.takeWhile Char.isDigit = [] := by
            cases ds with
            | nil => rfl
            | cons d l =>
              rw [List.takeWhile_cons, if_neg (by simpa using hd d (by simp))]
          have hdd : ds.dropWhile Char.isDigit = ds := by
            cases ds with
            | nil => rfl
            | cons d l =>
              rw [List.dropWhile_cons, if_neg (by simpa using hd d (by simp))]
          rw [hdt, hdd, digitRunsBySplit_all_nondigit ds hd,
            List.takeWhile_eq_self_iff.mpr hall]
          simp [digitRunsBySplit, List.splitOnP_nil]
        · rw [takeWhile_append_pos Char.isDigit rest ds hrest,
            dropWhile_append_pos Char.isDigit rest ds hrest]
          have hlen : (rest.dropWhile Char.isDigit).length ≤ n := by
            have := length_dropWhile_le Char.isDigit rest
            simp only [List.length_cons] at hl
            omega
          rw [ih (rest.dropWhile Char.isDigit) ds hlen hd]
      · rw [List.cons_append, digitRunsBySplit_cons_nondigit c _ (by simpa using hc),
          digitRunsBySplit_cons_nondigit c rest (by simpa using hc)]
        exact ih rest ds (by simp only [List.length_cons] at hl; omega) hd

theorem digitRunsBySplit_append_nondigit (cs ds : List Char) (hd : ∀ d ∈ ds, ¬ d.isDigit) :
    digitRunsBySplit (cs ++ ds) = digitRunsBySplit cs :=
  digitRunsBySplit_append_nondigit_aux cs.length cs ds le_rfl hd

/-- Python `s.rstrip("/")`: drop every trailing slash. -/
def pyRstripSlashes (s : String) : String :=
  String.mk ((s.data.reverse.dropWhile (fun c => c == '/')).reverse)

theorem parse_version_string_rstrip (s : String) :
    parse_version_string (pyRstripSlashes s) = parse_version_string s := by
  unfold parse_version_string pyRstripSlashes
  rw [findDigitRuns_eq_split, findDigitRuns_eq_split]
  congr 1
  have hsplit : s.data = (s.data.reverse.dropWhile (fun c => c == '/')).reverse
      ++ (s.data.reverse.takeWhile (fun c => c == '/')).reverse := by
    rw [← List.reverse_append, List.takeWhile_append_dropWhile, List.reverse_reverse]
  conv_rhs => rw [hsplit]
  rw [digitRunsBySplit_append_nondigit]
  intro d hdm
  have := List.mem_takeWhile_imp (List.mem_reverse.mp hdm)
  have hd : d = '/' := by simpa using this
  subst hd
  decide

/-- The fold Python's `max(items, key=parse_version_string)` performs over
a non-empty list: keep the current best, replace it only when a later
element's key is strictly greater (so ties keep the first occurrence). -/
def pyMaxByVersion (c : String) (cs : List String) : String :=
  cs.foldl (fun best v =>
    if parse_version_string best < parse_version_string v then v else best) c

/-- `utils._latest_version_string`: keep the inputs that contain a digit
(stripped of trailing slashes) and return the one with the greatest
version tuple, first occurrence winning ties; absent when none qualifies. -/
def _latest_version_string (versions : List String) : Option String :=
  let cleaned := versions.foldl (fun acc version =>
    if parse_version_string version = [] then acc
    else acc ++ [pyRstripSlashes version]) []
  match cleaned with
  | [] => Option.none
  | c :: cs => Option.some (pyMaxByVersion c cs)

theorem latest_cleaned_eq (versions : List String) (acc : List String) :
    versions.foldl (fun acc version =>
      if parse_version_string version = [] then acc
      else acc ++ [pyRstripSlashes version]) acc =
    acc ++ (versions.filter (fun v => !decide (parse_version_string v = []))).map pyRstripSlashes := by
  induction versions generalizing acc with
  | nil => simp
  | cons v rest ih =>
    rw [List.foldl_cons, List.filter_cons]
    by_cases hv : parse_version_string v = []
    · rw [if_pos hv, ih]
      simp [hv]
    · rw [if_neg hv, ih]
      simp [hv]

/-- The max fold returns a member of the list, maximal for the version
order, and strictly greater than every earlier member. -/
theorem pyMaxByVersion_spec (cs : List String) :
    ∀ c, ∃ pre post, c :: cs = pre ++ (pyMaxByVersion c cs) :: post
      ∧ (∀ u ∈ pre, parse_version_string u < parse_version_string (pyMaxByVersion c cs))
      ∧ (∀ u ∈ c :: cs, parse_version_string u ≤ parse_version_string (pyMaxByVersion c cs)) := by
  induction cs with
  | nil =>
    intro c
    exact ⟨[], [], rfl, by simp, by simp [pyMaxByVersion]⟩
  | cons v vs ih =>
    intro c
    have hstep : pyMaxByVersion c (v :: vs) =
        pyMaxByVersion (if parse_version_string c < parse_version_string v then v else c) vs := by
      rw [pyMaxByVersion, pyMaxByVersion, List.foldl_cons]
    by_cases hcv : parse_version_string c < parse_version_string v
    · obtain ⟨pre, post, hsplit, hstrict, hle⟩ := ih v
      rw [if_pos hcv] at hstep
      refine ⟨c :: pre, post, ?_, ?_, ?_⟩
      · rw [hstep, List.cons_append, ← hsplit]
      · intro u hu
        rw [hstep]
        rcases List.mem_cons.mp hu with h | h
        · subst h
          exact lt_of_lt_of_le hcv (hle v (by simp))
        · exact hstrict u h
      · intro u hu
        rw [hstep]
        rcases List.mem_cons.mp hu with h | h
        · subst h
          exact le_of_lt (lt_of_lt_of_le hcv (hle v (by simp)))
        · exact hle u h
    · obtain ⟨pre, post, hsplit, hstrict, hle⟩ := ih c
      rw [if_neg hcv] at hstep
      cases pre with
      | nil =>
        have hm : pyMaxByVersion c vs = c := by
          have := hsplit
          simp only [List.nil_append] at this
          exact (List.cons.injEq _ _ _ _ ▸ this).1.symm
        refine ⟨[], v :: vs, ?_, by simp, ?_⟩
        · rw [hstep, hm]
          simp
        · intro u hu
          rw [hstep, hm]
          rcases List.mem_cons.mp hu with h | h
          · subst h
            exact le_rfl
          · rcases List.mem_cons.mp h with h2 | h2
            · subst h2
              exact le_of_not_lt hcv
            · have := hle u (by simp [h2])
              rwa [hm] at this
      | cons p ps =>
        rw [List.cons_append] at hsplit
        injection hsplit with hp1 hp2
        refine ⟨c :: v :: ps, post, ?_, ?_, ?_⟩
        · rw [hstep, List.cons_append, List.cons_append, ← hp2]
        · intro u hu
          rw [hstep]
          have hcm : parse_version_string c < parse_version_string (pyMaxByVersion c vs) :=
            hstrict c (by rw [← hp1]; simp)
          rcases List.mem_cons.mp hu with h | h
          · rw [h]
            exact hcm
          · rcases List.mem_cons.mp h with h2 | h2
            · rw [h2]
              exact lt_of_le_of_lt (le_of_not_lt hcv) hcm
            · exact hstrict u (by simp [h2])
        · intro u hu
          rw [hstep]
          rcases List.mem_cons.mp hu with h | h
          · rw [h]
            exact hle c (by simp)
          · rcases List.mem_cons.mp h with h2 | h2
            · rw [h2]
              exact le_trans (le_of_not_lt hcv) (hle c (by simp))
            · exact hle u (by simp [h2])

/-- C8: for every string with at least one maximal run of decimal digits,
`parse_version_string` returns the non-empty tuple of the integer values
of those runs in left-to-right order of appearance (the runs being the
non-empty chunks of the split on non-digit characters); for a string with
no digit it returns the empty tuple. -/
theorem claim_C8_parse_version_string_runs (s : String) :
    parse_version_string s = (digitRunsBySplit s.data).map digitsToNat
    ∧ ((∃ c ∈ s.data, c.isDigit) → parse_version_string s ≠ [])
    ∧ ((∀ c ∈ s.data, ¬ c.isDigit) → parse_version_string s = []) := by
  refine ⟨by rw [parse_version_string, findDigitRuns_eq_split], ?_, ?_⟩
  · rintro ⟨c, hc, hd⟩
    rw [parse_version_string, findDigitRuns_eq_split]
    simp only [ne_eq, List.map_eq_nil]
    exact digitRunsBySplit_ne_nil s.data c hc hd
  · intro h
    rw [parse_version_string, findDigitRuns_eq_split, digitRunsBySplit_all_nondigit s.data h]
    rfl

/-- Witness for C8 at the concrete inputs "qt6.10.1" and "abc". -/
theorem claim_C8_parse_version_string_runs_witness :
    (∃ c ∈ "qt6.10.1".data, c.isDigit) ∧ parse_version_string "qt6.10.1" ≠ []
      ∧ (∀ c ∈ "abc".data, ¬ c.isDigit) ∧ parse_version_string "abc" = []
      ∧ parse_version_string "qt6.10.1" = [6, 10, 1] := by
  refine ⟨⟨'6', by decide, by decide⟩,
    (claim_C8_parse_version_string_runs "qt6.10.1").2.1 ⟨'6', by decide, by decide⟩,
    by decide,
    (claim_C8_parse_version_string_runs "abc").2.2 (by decide),
    by decide⟩

theorem filtermap_split (q : String → Bool) (f : String → String) :
    ∀ (l A : List String) (b : String) (B : List String),
      (l.filter q).map f = A ++ b :: B →
      ∃ pre v post, l = pre ++ v :: post ∧ q v = true ∧ f v = b
        ∧ (pre.filter q).map f = A := by
  intro l
  induction l with
  | nil =>
    intro A b B h
    simp at h
  | cons x xs ih =>
    intro A b B h
    rw [List.filter_cons] at h
    by_cases hq : q x = true
    · rw [if_pos hq, List.map_cons] at h
      cases A with
      | nil =>
        simp only [List.nil_append] at h
        refine ⟨[], x, xs, rfl, hq, ?_, rfl⟩
        exact (List.cons.injEq _ _ _ _ ▸ h).1
      | cons a A2 =>
        rw [List.cons_append] at h
        injection h with h1 h2
        obtain ⟨pre, v, post, hsp, hqv, hfv, hpre⟩ := ih A2 b B h2
        refine ⟨x :: pre, v, post, by rw [hsp, List.cons_append], hqv, hfv, ?_⟩
        rw [List.filter_cons, if_pos hq, List.map_cons, hpre, h1]
    · rw [if_neg hq] at h
      obtain ⟨pre, v, post, hsp, hqv, hfv, hpre⟩ := ih A b B h
      refine ⟨x :: pre, v, post, by rw [hsp, List.cons_append], hqv, hfv, ?_⟩
      rw [List.filter_cons, if_neg hq, hpre]

/-- C7 counterexample: on input `["1/"]` the function returns `"1"`,
which is not an element of the input — the returned string is the
trailing-slash-stripped form of an input element, not the element
itself. -/
theorem claim_C7_counterexample :
    _latest_version_string ["1/"] = Option.some "1" ∧ "1" ∉ ["1/"] := by
  constructor
  · rfl
  · decide

/-- C7 (amended): `_latest_version_string` keeps the inputs containing at
least one decimal digit and returns the trailing-slash-stripped form of
the one whose extracted integer tuple is lexicographically greatest under
numeric comparison, ties broken by first appearance; it returns absent
when no input contains a digit; in particular it picks "6.10.1" over
"6.5.0" and "6.9.9". -/
theorem claim_C7_latest_version_selection (versions : List String) :
    (_latest_version_string versions = Option.none ↔
      ∀ v ∈ versions, parse_version_string v = [])
    ∧ (∀ w, _latest_version_string versions = Option.some w →
        ∃ pre v post, versions = pre ++ v :: post
          ∧ parse_version_string v ≠ []
          ∧ w = pyRstripSlashes v
          ∧ (∀ u ∈ versions, parse_version_string u ≤ parse_version_string v)
          ∧ (∀ u ∈ pre, parse_version_string u < parse_version_string v))
    ∧ _latest_version_string ["6.5.0", "6.10.1", "6.9.9"] = Option.some "6.10.1" := by
  have hclean : versions.foldl (fun acc version =>
      if parse_version_string version = [] then acc
      else acc ++ [pyRstripSlashes version]) [] =
      (versions.filter (fun v => !decide (parse_version_string v = []))).map pyRstripSlashes := by
    rw [latest_cleaned_eq versions []]
    rfl
  refine ⟨?_, ?_, by decide⟩
  · rw [_latest_version_string]
    rw [hclean]
    cases hf : (versions.filter (fun v => !decide (parse_version_string v = []))).map
        pyRstripSlashes with
    | nil =>
      simp only [true_iff]
      rw [List.map_eq_nil] at hf
      intro v hv
      by_contra hparse
      have : v ∈ versions.filter (fun v => !decide (parse_version_string v = [])) := by
        rw [List.mem_filter]
        exact ⟨hv, by simpa using hparse⟩
      rw [hf] at this
      simp at this
    | cons c cs =>
      constructor
      · intro h
        simp at h
      · intro hall
        have : versions.filter (fun v => !decide (parse_version_string v = [])) = [] := by
          rw [List.filter_eq_nil]
          intro a ha
          simpa using hall a ha
        rw [this] at hf
        simp at hf
  · intro w hw
    rw [_latest_version_string] at hw
    rw [hclean] at hw
    cases hf : (versions.filter (fun v => !decide (parse_version_string v = []))).map
        pyRstripSlashes with
    | nil =>
      rw [hf] at hw
      simp at hw
    | cons c cs =>
      rw [hf] at hw
      simp only [Option.some.injEq] at hw
      obtain ⟨preC, postC, hsplitC, hstrictC, hleC⟩ := pyMaxByVersion_spec cs c
      have hfull : (versions.filter (fun v => !decide (parse_version_string v = []))).map
          pyRstripSlashes = preC ++ (pyMaxByVersion c cs) :: postC := by
        rw [hf, hsplitC]
      obtain ⟨pre, v, post, hsp, hqv, hfv, hpre⟩ :=
        filtermap_split _ _ versions preC (pyMaxByVersion c cs) postC hfull
      have hvd : parse_version_string v ≠ [] := by simpa using hqv
      have hparse_v : parse_version_string (pyMaxByVersion c cs) = parse_version_string v := by
        rw [← hfv, parse_version_string_rstrip]
      refine ⟨pre, v, post, hsp, hvd, (hfv.trans hw).symm, ?_, ?_⟩
      · intro u hu
        by_cases hud : parse_version_string u = []
        · rw [hud, ← hparse_v]
          exact List.nil_le
        · have humem : pyRstripSlashes u ∈ c :: cs := by
            rw [← hf]
            exact List.mem_map_of_mem _ (List.mem_filter.mpr ⟨hu, by simpa using hud⟩)
          have := hleC (pyRstripSlashes u) humem
          rwa [parse_version_string_rstrip, hparse_v] at this
      · intro u hu
        by_cases hud : parse_version_string u = []
        · rw [hud]
          cases hpv : parse_version_string v with
          | nil => exact absurd hpv hvd
          | cons a l => exact List.nil_lt_cons a l
        · have humem : pyRstripSlashes u ∈ preC := by
            rw [← hpre]
            exact List.mem_map_of_mem _ (List.mem_filter.mpr ⟨hu, by simpa using hud⟩)
          have := hstrictC (pyRstripSlashes u) humem
          rwa [parse_version_string_rstrip, hparse_v] at this

/-! ## String and path helpers shared by the embeddings -/

/-- Python `str.lower()` (ASCII; the repository only compares ASCII
markers). -/
def pyLower (s : String) : String := String.mk (s.data.map Char.toLower)

/-- Python `str.upper()` (ASCII). -/
def pyUpper (s : String) : String := String.mk (s.data.map Char.toUpper)

def isPrefixOfB : List Char → List Char → Bool
  | [], _ => true
  | _ :: _, [] => false
  | a :: as, b :: bs => a == b && isPrefixOfB as bs

def isInfixOfB (n : List Char) : List Char → Bool
  | [] => isPrefixOfB n []
  | b :: bs => isPrefixOfB n (b :: bs) || isInfixOfB n bs

/-- Python `needle in hay` on strings: substring containment. -/
def pyIn (needle hay : String) : Bool := isInfixOfB needle.data hay.data

/-- `s.startswith(pre)`, and the building block of substring search. -/
def pyStartsWith (s pre : String) : Bool := isPrefixOfB pre.data s.data

/-- Python `s.split(sep)` for a one-character separator (every separator
in the embedded code is one character). -/
def pySplit1 (sep : Char) (s : String) : List String :=
  (s.data.splitOnP (fun c => c == sep)).map String.mk

/-- Python `s.replace(a, b)` for one-character patterns. -/
def pyReplaceChar (a b : Char) (s : String) : String :=
  String.mk (s.data.map (fun c => if c == a then b else c))

def isPySpace (c : Char) : Bool :=
  c == ' ' || c == '\t' || c == '\n' || c == '\r' || c == '\x0b' || c == '\x0c'

/-- Python `str.strip()` (ASCII whitespace). -/
def pyStrip (s : String) : String :=
  String.mk (((s.data.dropWhile isPySpace).reverse.dropWhile isPySpace).reverse)

/-- Python `int(s)` for decimal literals: optional surrounding whitespace,
optional sign, at least one digit (digit-group underscores are not
modelled; no caller passes them). -/
def pyDigitsInt (ds : List Char) : Option Int :=
  if ds.isEmpty then Option.none
  else if ds.all Char.isDigit then Option.some (Int.ofNat (digitsToNat ds)) else Option.none

def pyIntParse (s : String) : Option Int :=
  match (pyStrip s).data with
  | '+' :: ds => pyDigitsInt ds
  | '-' :: ds => (pyDigitsInt ds).map (fun n => -n)
  | ds => pyDigitsInt ds

/-- `s.split(sep, 1)[0]`: the text before the first separator (the whole
string when the separator does not occur). -/
def pySplitOnceHead (s : String) (sep : Char) : String := ((pySplit1 sep s).headD s)

/-- `a or b` on optional strings, with Python truthiness. -/
def pyOr (a b : Option String) : Option String := if pyTruthy a then a else b

/-- `(a or b)` unwrapped against a plain default: `a if truthy else b`. -/
def pyOrStr (a : Option String) (b : String) : String :=
  match a with
  | Option.some s => if s = "" then b else s
  | Option.none => b

/-- `pathlib.Path(s).name`: the last component of the path (both `/` and
`\` separate components on Windows; drive quirks are not modelled, no
claim touches them). -/
def pyPathName (s : String) : String :=
  let rev := s.data.reverse.dropWhile (fun c => c == '/' || c == '\\')
  String.mk ((rev.takeWhile (fun c => !(c == '/' || c == '\\'))).reverse)

/-- Display form of a modelled path (`str(path)` with `/` separators). -/
def ppathStr (p : List String) : String := String.intercalate "/" p

/-! ## EnvironmentProbe (`dev_tool/qt.py`)

`pathlib.Path` values are modelled as their component lists.  The
process environment is a record: `sys.platform`, `os.environ.get`,
`shutil.which`, the existence check used for the vswhere probe, and the
outcome of the two vswhere subprocess invocations (the parsed JSON pair
of `_vswhere_info`, and the raw `-property installationVersion` output).
-/

structure SysEnv where
  platform : String
  envVar : String → Option String
  which : String → Option String
  fileExists : String → Bool
  vswhereJson : Option (Option String × Option String)
  vswhereVersionOut : Option String

def winPlatform (env : SysEnv) : Bool := pyStartsWith env.platform "win"

/-- `qt.detect_qt_flavor`: "mingw" if any lowered path segment contains
"mingw", else "msvc" if any contains "msvc", else absent. -/
def detect_qt_flavor (path : List String) : Option String :=
  let lower_parts := path.map pyLower
  if lower_parts.any (fun part => pyIn "mingw" part) then Option.some "mingw"
  else if lower_parts.any (fun part => pyIn "msvc" part) then Option.some "msvc"
  else Option.none

/-- C10: `detect_qt_flavor` gives "mingw" priority — a path whose
segments (case-insensitively) contain both "mingw" and "msvc" yields
"mingw" — and yields absent exactly when neither substring occurs in any
segment. -/
theorem claim_C10_detect_qt_flavor_priority (path : List String) :
    ((∃ part ∈ path, pyIn "mingw" (pyLower part)) ∧
        (∃ part ∈ path, pyIn "msvc" (pyLower part)) →
      detect_qt_flavor path = Option.some "mingw")
    ∧ (detect_qt_flavor path = Option.none ↔
        (∀ part ∈ path, ¬ pyIn "mingw" (pyLower part) ∧ ¬ pyIn "msvc" (pyLower part))) := by
  have hmem : ∀ (needle : String),
      (path.map pyLower).any (fun part => pyIn needle part) =
        decide (∃ part ∈ path, pyIn needle (pyLower part) = true) := by
    intro needle
    rw [List.any_map]
    rcases h : path.any ((fun part => pyIn needle part) ∘ pyLower) with _ | _
    · rw [List.any_eq_false] at h
      exact (decide_eq_false (by simpa [Function.comp] using h)).symm
    · rw [List.any_eq_true] at h
      obtain ⟨x, hx, hpx⟩ := h
      exact (decide_eq_true ⟨x, hx, by simpa [Function.comp] using hpx⟩).symm
  constructor
  · rintro ⟨⟨p1, hp1, hin1⟩, _⟩
    rw [detect_qt_flavor]
    rw [if_pos (by rw [hmem]; exact decide_eq_true ⟨p1, hp1, hin1⟩)]
  · rw [detect_qt_flavor]
    by_cases h1 : (path.map pyLower).any (fun part => pyIn "mingw" part) = true
    · rw [if_pos h1]
      constructor
      · intro h
        simp at h
      · intro hall
        rw [hmem] at h1
        obtain ⟨p1, hp1, hin1⟩ := of_decide_eq_true h1
        exact absurd hin1 (by simpa using (hall p1 hp1).1)
    · rw [if_neg h1]
      by_cases h2 : (path.map pyLower).any (fun part => pyIn "msvc" part) = true
      · rw [if_pos h2]
        constructor
        · intro h
          simp at h
        · intro hall
          rw [hmem] at h2
          obtain ⟨p2, hp2, hin2⟩ := of_decide_eq_true h2
          exact absurd hin2 (by simpa using (hall p2 hp2).2)
      · rw [if_neg h2]
        constructor
        · intro _ part hpart
          rw [hmem] at h1 h2
          constructor
          · intro hc
            exact h1 (decide_eq_true ⟨part, hpart, hc⟩)
          · intro hc
            exact h2 (decide_eq_true ⟨part, hpart, hc⟩)
        · intro _
          rfl

/-- Witness for C10 at a dual-marked path. -/
theorem claim_C10_detect_qt_flavor_priority_witness :
    detect_qt_flavor ["qt6", "6.8.0", "MinGW_msvc2022_64"] = Option.some "mingw" :=
  (claim_C10_detect_qt_flavor_priority ["qt6", "6.8.0", "MinGW_msvc2022_64"]).1
    ⟨⟨"MinGW_msvc2022_64", by decide, by decide⟩, ⟨"MinGW_msvc2022_64", by decide, by decide⟩⟩

/-- `qt._vswhere_path`: vswhere.exe under the standard installer
directory, when the ProgramFiles(x86) variable is set and the file
exists (the modelled join uses `/`; only existence matters). -/
def _vswhere_path (env : SysEnv) : Option String :=
  match env.envVar "ProgramFiles(x86)" with
  | Option.none => Option.none
  | Option.some pf =>
    if pf = "" then Option.none
    else
      let path := pf ++ "/Microsoft Visual Studio/Installer/vswhere.exe"
      if env.fileExists path then Option.some path else Option.none

/-- `qt._vswhere_info`: the (installationPath, installationVersion) pair
for the latest install; the subprocess call and JSON decoding are
abstracted into `env.vswhereJson` (absent models every failure path). -/
def _vswhere_info (env : SysEnv) : Option (Option String × Option String) :=
  if ¬ winPlatform env then Option.none
  else
    match _vswhere_path env with
    | Option.none => Option.none
    | Option.some _ => env.vswhereJson

/-- `qt._detect_visual_studio_generator`: map the major component of the
vswhere-reported version to a Visual Studio generator name. -/
def _detect_visual_studio_generator (env : SysEnv) : Option String :=
  if ¬ winPlatform env then Option.none
  else
    match _vswhere_info env with
    | Option.none => Option.none
    | Option.some info =>
      match info.2 with
      | Option.none => Option.none
      | Option.some version =>
        if version = "" then Option.none
        else
          match pyIntParse (pySplitOnceHead version '.') with
          | Option.none => Option.none
          | Option.some major =>
            if 17 ≤ major then Option.some "Visual Studio 17 2022"
            else if major = 16 then Option.some "Visual Studio 16 2019"
            else Option.none

/-- `qt._has_visual_studio_install`: environment markers, else a
successful vswhere `-property installationVersion` query with non-blank
output. -/
def _has_visual_studio_install (env : SysEnv) : Bool :=
  if pyTruthy (env.envVar "VCToolsInstallDir") || pyTruthy (env.envVar "VCINSTALLDIR") ||
      pyTruthy (env.envVar "VSINSTALLDIR") then
    true
  else
    match _vswhere_path env with
    | Option.none => false
    | Option.some _ =>
      match env.vswhereVersionOut with
      | Option.none => false
      | Option.some out => pyStrip out ≠ ""

/-- The CXX/CC loop body of `qt.detect_compiler_flavor`: flavor from a
compiler override variable's executable basename, absent to continue. -/
def _compiler_env_flavor (env : SysEnv) (var : String) : Option String :=
  match env.envVar var with
  | Option.none => Option.none
  | Option.some compiler =>
    if compiler = "" then Option.none
    else
      let name := pyLower (pyPathName compiler)
      if name = "cl" || name = "cl.exe" || pyIn "msvc" name then Option.some "msvc"
      else if pyIn "mingw" name || pyStartsWith name "g++" || pyStartsWith name "gcc" then
        Option.some "mingw"
      else Option.none

/-- `qt.detect_compiler_flavor`: Windows-only guess of the toolchain
family, from the generator name, the CXX/CC overrides, an installed
Visual Studio, or the compilers on the search path. -/
def detect_compiler_flavor (env : SysEnv) (generator : Option String) : Option String :=
  if ¬ winPlatform env then Option.none
  else
    let gen := pyLower (pyOrStr generator (pyOrStr (env.envVar "CMAKE_GENERATOR") ""))
    if pyIn "visual studio" gen || pyIn "msvc" gen then Option.some "msvc"
    else if pyIn "mingw" gen then Option.some "mingw"
    else
      match _compiler_env_flavor env "CXX" with
      | Option.some f => Option.some f
      | Option.none =>
        match _compiler_env_flavor env "CC" with
        | Option.some f => Option.some f
        | Option.none =>
          if _has_visual_studio_install env then Option.some "msvc"
          else if (env.which "cl").isSome then Option.some "msvc"
          else if (env.which "g++").isSome then Option.some "mingw"
          else Option.none

/-- `qt.detect_generator`: CLI value, else $CMAKE_GENERATOR, else (on
Windows) a Visual Studio generator from vswhere, else Ninja when on the
search path, else absent. -/
def detect_generator (env : SysEnv) (cli_value : Option String) : Option String :=
  if pyTruthy cli_value then cli_value
  else if pyTruthy (env.envVar "CMAKE_GENERATOR") then env.envVar "CMAKE_GENERATOR"
  else if winPlatform env && pyTruthy (_detect_visual_studio_generator env) then
    _detect_visual_studio_generator env
  else if (env.which "ninja").isSome then Option.some "Ninja"
  else Option.none

/-- C2: `detect_generator` follows the precedence CLI value, then the
CMAKE_GENERATOR environment variable, then (Windows only) the Visual
Studio generator derived from the vswhere-reported major version
(≥ 17 ↦ "Visual Studio 17 2022", 16 ↦ "Visual Studio 16 2019", other
majors give no suggestion), then "Ninja" when the ninja executable is on
the search path, else absent. -/
theorem claim_C2_detect_generator_precedence (env : SysEnv) (cli : Option String) :
    (pyTruthy cli → detect_generator env cli = cli)
    ∧ (¬ pyTruthy cli → pyTruthy (env.envVar "CMAKE_GENERATOR") →
        detect_generator env cli = env.envVar "CMAKE_GENERATOR")
    ∧ (¬ pyTruthy cli → ¬ pyTruthy (env.envVar "CMAKE_GENERATOR") → winPlatform env →
        ∀ ip v, _vswhere_info env = Option.some (ip, Option.some v) → v ≠ "" →
          ∀ major, pyIntParse (pySplitOnceHead v '.') = Option.some major →
            ((17 ≤ major → detect_generator env cli = Option.some "Visual Studio 17 2022")
             ∧ (major = 16 → detect_generator env cli = Option.some "Visual Studio 16 2019")
             ∧ (major < 16 → detect_generator env cli =
                 (if (env.which "ninja").isSome then Option.some "Ninja" else Option.none))))
    ∧ (¬ pyTruthy cli → ¬ pyTruthy (env.envVar "CMAKE_GENERATOR") →
        (winPlatform env = false ∨ _detect_visual_studio_generator env = Option.none) →
        detect_generator env cli =
          (if (env.which "ninja").isSome then Option.some "Ninja" else Option.none)) := by
  refine ⟨?_, ?_, ?_, ?_⟩
  · intro h
    rw [detect_generator, if_pos h]
  · intro h1 h2
    rw [detect_generator, if_neg (by simpa using h1), if_pos h2]
  · intro h1 h2 hwin ip v hinfo hv major hmajor
    have hvs : _detect_visual_studio_generator env =
        (if 17 ≤ major then Option.some "Visual Studio 17 2022"
         else if major = 16 then Option.some "Visual Studio 16 2019"
         else Option.none) := by
      rw [_detect_visual_studio_generator, if_neg (by simpa using hwin), hinfo]
      simp only [if_neg hv, hmajor]
    refine ⟨?_, ?_, ?_⟩
    · intro h17
      rw [detect_generator, if_neg (by simpa using h1), if_neg (by simpa using h2)]
      rw [if_pos]
      · rw [hvs, if_pos h17]
      · rw [hvs, if_pos h17]
        simp [hwin, pyTruthy]
    · intro h16
      have h17 : ¬ 17 ≤ major := by omega
      rw [detect_generator, if_neg (by simpa using h1), if_neg (by simpa using h2)]
      rw [if_pos]
      · rw [hvs, if_neg h17, if_pos h16]
      · rw [hvs, if_neg h17, if_pos h16]
        simp [hwin, pyTruthy]
    · intro hlt
      have h17 : ¬ 17 ≤ major := by omega
      have h16 : ¬ major = 16 := by omega
      rw [detect_generator, if_neg (by simpa using h1), if_neg (by simpa using h2)]
      rw [if_neg]
      rw [hvs, if_neg h17, if_neg h16]
      simp [pyTruthy]
  · intro h1 h2 hnone
    rw [detect_generator, if_neg (by simpa using h1), if_neg (by simpa using h2)]
    rw [if_neg]
    rcases hnone with h | h
    · simp [h]
    · simp [h, pyTruthy]

/-- Witness for C2: a Windows environment whose vswhere reports version
17.5.33720.406 yields the Visual Studio 17 2022 generator; the same
environment off Windows falls back to Ninja. -/
theorem claim_C2_detect_generator_precedence_witness :
    detect_generator
      { platform := "win32",
        envVar := fun k => if k = "ProgramFiles(x86)" then Option.some "C:/PF86" else Option.none,
        which := fun _ => Option.none,
        fileExists := fun _ => true,
        vswhereJson := Option.some (Option.none, Option.some "17.5.33720.406"),
        vswhereVersionOut := Option.none } Option.none =
      Option.some "Visual Studio 17 2022" :=
  (((claim_C2_detect_generator_precedence
      { platform := "win32",
        envVar := fun k => if k = "ProgramFiles(x86)" then Option.some "C:/PF86" else Option.none,
        which := fun _ => Option.none,
        fileExists := fun _ => true,
        vswhereJson := Option.some (Option.none, Option.some "17.5.33720.406"),
        vswhereVersionOut := Option.none } Option.none).2.2.1
    (by decide) (by decide) (by decide)
    Option.none "17.5.33720.406" (by decide) (by decide)
    17 (by decide)).1 (by decide))

/-- The abort message of `qt.enforce_qt_toolchain_match`, naming both
flavors and the remediation. -/
def qtMismatchMessage (p : List String) (qt_flavor compiler_flavor : String) : String :=
  "Qt install " ++ ppathStr p ++ " looks like " ++ pyUpper qt_flavor ++
    ", but your compiler/generator looks like " ++ pyUpper compiler_flavor ++ ".\n" ++
    "Use a matching Qt download (e.g. download_qt6.py --compiler win64_mingw) " ++
    "or switch to the corresponding toolchain/generator."

/-- `qt.enforce_qt_toolchain_match`: abort (SystemExit, modelled as
`Except.error` carrying the message) exactly when a Qt prefix is present
on Windows and the two detected flavors are both known and differ. -/
def enforce_qt_toolchain_match (env : SysEnv) (qtPrefix : Option (List String))
    (generator : Option String) : Except String Unit :=
  match qtPrefix with
  | Option.none => Except.ok ()
  | Option.some p =>
    if ¬ winPlatform env then Except.ok ()
    else
      match detect_compiler_flavor env generator, detect_qt_flavor p with
      | Option.some compiler_flavor, Option.some qt_flavor =>
        if compiler_flavor ≠ qt_flavor then
          Except.error (qtMismatchMessage p qt_flavor compiler_flavor)
        else Except.ok ()
      | _, _ => Except.ok ()

theorem isPrefixOfB_append_self (n post : List Char) : isPrefixOfB n (n ++ post) = true := by
  induction n with
  | nil => rfl
  | cons a as ih =>
    rw [List.cons_append, isPrefixOfB]
    simp [ih]

theorem isInfixOfB_of_isPrefixOfB (n hay : List Char) (h : isPrefixOfB n hay = true) :
    isInfixOfB n hay = true := by
  cases hay with
  | nil =>
    rw [isInfixOfB]
    exact h
  | cons b bs =>
    rw [isInfixOfB]
    simp [h]

theorem isInfixOfB_append_left (n : List Char) (pre : List Char) (hay : List Char)
    (h : isInfixOfB n hay = true) : isInfixOfB n (pre ++ hay) = true := by
  induction pre with
  | nil => simpa using h
  | cons b bs ih =>
    rw [List.cons_append, isInfixOfB]
    simp [ih]

/-- A needle standing between two chunks is found by the substring
search. -/
theorem pyIn_sandwich (needle pre post : String) :
    pyIn needle (pre ++ (needle ++ post)) = true := by
  unfold pyIn
  rw [String.data_append, String.data_append]
  exact isInfixOfB_append_left _ _ _
    (isInfixOfB_of_isPrefixOfB _ _ (isPrefixOfB_append_self _ _))

/-- C3: `enforce_qt_toolchain_match` fails — with a message naming both
detected flavors and a remediation — exactly when the prefix is present,
the host is Windows, and both flavors are known and differ; in every
other case it returns normally. -/
theorem claim_C3_enforce_toolchain_match (env : SysEnv) (qtPrefix : Option (List String))
    (generator : Option String) :
    (qtPrefix = Option.none →
      enforce_qt_toolchain_match env qtPrefix generator = Except.ok ())
    ∧ (winPlatform env = false →
      enforce_qt_toolchain_match env qtPrefix generator = Except.ok ())
    ∧ (∀ p, qtPrefix = Option.some p →
        (detect_compiler_flavor env generator = Option.none ∨
         detect_qt_flavor p = Option.none ∨
         detect_compiler_flavor env generator = detect_qt_flavor p) →
        enforce_qt_toolchain_match env qtPrefix generator = Except.ok ())
    ∧ (∀ p compiler_flavor qt_flavor, qtPrefix = Option.some p → winPlatform env = true →
        detect_compiler_flavor env generator = Option.some compiler_flavor →
        detect_qt_flavor p = Option.some qt_flavor → compiler_flavor ≠ qt_flavor →
        ∃ e, enforce_qt_toolchain_match env qtPrefix generator = Except.error e
          ∧ pyIn (pyUpper qt_flavor) e = true
          ∧ pyIn (pyUpper compiler_flavor) e = true
          ∧ pyIn "Use a matching Qt download" e = true) := by
  refine ⟨?_, ?_, ?_, ?_⟩
  · intro h
    rw [h, enforce_qt_toolchain_match]
  · intro h
    cases qtPrefix with
    | none => rw [enforce_qt_toolchain_match]
    | some p =>
      rw [enforce_qt_toolchain_match]
      simp only [h]
      rw [if_pos (by simp)]
  · intro p hp hcase
    subst hp
    rw [enforce_qt_toolchain_match]
    by_cases hwin : winPlatform env = true
    · rw [if_neg (by simp [hwin])]
      rcases hcf : detect_compiler_flavor env generator with _ | cf
      · rfl
      · rcases hqf : detect_qt_flavor p with _ | qf
        · rfl
        · rcases hcase with h | h | h
          · rw [hcf] at h
            exact absurd h (by simp)
          · rw [hqf] at h
            exact absurd h (by simp)
          · rw [hcf, hqf] at h
            simp only [Option.some.injEq] at h
            simp [h]
    · rw [if_pos (by simpa using hwin)]
  · intro p compiler_flavor qt_flavor hp hwin hcf hqf hne
    subst hp
    have hval : enforce_qt_toolchain_match env (Option.some p) generator =
        Except.error (qtMismatchMessage p qt_flavor compiler_flavor) := by
      rw [enforce_qt_toolchain_match]
      rw [if_neg (by simp [hwin]), hcf, hqf]
      simp [hne]
    refine ⟨_, hval, ?_, ?_, ?_⟩
    · have hshape : qtMismatchMessage p qt_flavor compiler_flavor =
          ("Qt install " ++ ppathStr p ++ " looks like ") ++ (pyUpper qt_flavor ++
            (", but your compiler/generator looks like " ++ pyUpper compiler_flavor ++ ".\n" ++
             "Use a matching Qt download (e.g. download_qt6.py --compiler win64_mingw) " ++
             "or switch to the corresponding toolchain/generator.")) := by
        rw [qtMismatchMessage]
        simp [String.append_assoc]
      rw [hshape]
      exact pyIn_sandwich _ _ _
    · have hshape : qtMismatchMessage p qt_flavor compiler_flavor =
          ("Qt install " ++ ppathStr p ++ " looks like " ++ pyUpper qt_flavor ++
            ", but your compiler/generator looks like ") ++ (pyUpper compiler_flavor ++
            (".\n" ++
             "Use a matching Qt download (e.g. download_qt6.py --compiler win64_mingw) " ++
             "or switch to the corresponding toolchain/generator.")) := by
        rw [qtMismatchMessage]
        simp [String.append_assoc]
      rw [hshape]
      exact pyIn_sandwich _ _ _
    · have hshape : qtMismatchMessage p qt_flavor compiler_flavor =
          ("Qt install " ++ ppathStr p ++ " looks like " ++ pyUpper qt_flavor ++
            ", but your compiler/generator looks like " ++ pyUpper compiler_flavor ++ ".\n") ++
          ("Use a matching Qt download" ++ (" (e.g. download_qt6.py --compiler win64_mingw) " ++
             "or switch to the corresponding toolchain/generator.")) := by
        rw [qtMismatchMessage]
        simp [String.append_assoc]
      rw [hshape]
      exact pyIn_sandwich _ _ _

/-- Witness for C3: on Windows with a Visual Studio generator in the
environment and a mingw-flavored Qt path, enforcement aborts and the
message names both flavors and the remediation. -/
theorem claim_C3_enforce_toolchain_match_witness :
    ∃ e, enforce_qt_toolchain_match
        { platform := "win32",
          envVar := fun k => if k = "CMAKE_GENERATOR" then Option.some "Ninja Multi-Config" else Option.none,
          which := fun _ => Option.none,
          fileExists := fun _ => false,
          vswhereJson := Option.none,
          vswhereVersionOut := Option.some "17.5.1" }
        (Option.some ["C:", "Qt", "6.8.0", "msvc2022_64"]) (Option.some "MinGW Makefiles") =
        Except.error e
      ∧ pyIn (pyUpper "msvc") e = true
      ∧ pyIn (pyUpper "mingw") e = true
      ∧ pyIn "Use a matching Qt download" e = true :=
  (claim_C3_enforce_toolchain_match
      { platform := "win32",
        envVar := fun k => if k = "CMAKE_GENERATOR" then Option.some "Ninja Multi-Config" else Option.none,
        which := fun _ => Option.none,
        fileExists := fun _ => false,
        vswhereJson := Option.none,
        vswhereVersionOut := Option.some "17.5.1" }
      (Option.some ["C:", "Qt", "6.8.0", "msvc2022_64"]) (Option.some "MinGW Makefiles")).2.2.2
    ["C:", "Qt", "6.8.0", "msvc2022_64"] "mingw" "msvc" rfl (by decide) (by decide) (by decide)
    (by decide)

/-- One attempt of `re.search(r"(\d+)\.(\d+)\.(\d+)", part)` at a fixed
start position: three maximal digit runs separated by dots. -/
def matchVer3At (cs : List Char) : Option (Nat × Nat × Nat) :=
  let d1 := cs.takeWhile Char.isDigit
  if d1.isEmpty then Option.none
  else
    match cs.dropWhile Char.isDigit with
    | '.' :: rest2 =>
      let d2 := rest2.takeWhile Char.isDigit
      if d2.isEmpty then Option.none
      else
        match rest2.dropWhile Char.isDigit with
        | '.' :: rest3 =>
          let d3 := rest3.takeWhile Char.isDigit
          if d3.isEmpty then Option.none
          else Option.some (digitsToNat d1, digitsToNat d2, digitsToNat d3)
        | _ => Option.none
    | _ => Option.none

/-- `re.search` scanning: first position where the dotted triple
matches. -/
def searchVer3 : List Char → Option (Nat × Nat × Nat)
  | [] => Option.none
  | c :: rest =>
    match matchVer3At (c :: rest) with
    | Option.some t => Option.some t
    | Option.none => searchVer3 rest

/-- `utils.parse_version_from_path`: scan the path components from the
last to the first and return the first dotted numeric triple found, as a
tuple; empty when none matches. -/
def parse_version_from_path (path : List String) : List Nat :=
  match path.reverse.findSome? (fun part => searchVer3 part.data) with
  | Option.some (a, b, c) => [a, b, c]
  | Option.none => []

/-- The environment surface of `qt.resolve_qt_prefix` /
`qt.autodetect_qt_prefix` on top of `SysEnv`: `Path(value).expanduser()`
(abstract — no claim constrains tilde handling), path existence,
`os.pathsep`, and the vendored-root scan (`ROOT/third_party/qt6` and its
`rglob("lib/cmake/Qt6")` hits). -/
structure QtEnv extends SysEnv where
  expandPath : String → List String
  pathExists : List String → Bool
  pathSep : Char
  qtRootExists : Bool
  qtCmakeDirs : List (List String)

/-- `autodetect_qt_prefix`'s inner `pick_best`: stable-sort by version
tuple and take the last (the source sorts in place and reads
`items[-1][2]`). -/
def pickBest (items : List (List Nat × Option String × List String)) : Option (List String) :=
  match (items.mergeSort (fun a b => decide (a.1 ≤ b.1))).getLast? with
  | Option.none => Option.none
  | Option.some best => Option.some best.2.2

/-- The candidate triples `autodetect_qt_prefix` builds from the scan:
each cmake dir's `parents[2]` tagged with its version tuple and flavor. -/
def qtCandidates (env : QtEnv) : List (List Nat × Option String × List String) :=
  env.qtCmakeDirs.map (fun cmake_dir =>
    let pre := cmake_dir.take (cmake_dir.length - 3)
    (parse_version_from_path pre, detect_qt_flavor pre, pre))

/-- `qt.autodetect_qt_prefix`: best marker directory under the vendored
root, preferring the given flavor. -/
def autodetectQtPrefix (env : QtEnv) (preferred_flavor : Option String) : Option (List String) :=
  if ¬ env.qtRootExists then Option.none
  else
    let candidates := qtCandidates env
    if candidates.isEmpty then Option.none
    else if pyTruthy preferred_flavor then
      match pickBest (candidates.filter (fun item => item.2.1 == preferred_flavor)) with
      | Option.some chosen => Option.some chosen
      | Option.none => pickBest candidates
    else pickBest candidates

/-- The loop body of `resolve_qt_prefix`: skip falsy values, expand the
user directory, and take the path when it exists. -/
def qtCandidateCheck (env : QtEnv) (value : Option String) : Option (List String) :=
  match value with
  | Option.none => Option.none
  | Option.some v =>
    if v = "" then Option.none
    else
      let path := env.expandPath v
      if env.pathExists path then Option.some path else Option.none

/-- `qt.resolve_qt_prefix`: CLI value, QT_PREFIX_PATH, the first
CMAKE_PREFIX_PATH segment — each taken when truthy and existing — then
flavor-preferring autodetection. -/
def resolveQtPrefix (env : QtEnv) (cli_value : Option String) (generator : Option String) :
    Option (List String) :=
  let candidates : List (Option String) :=
    [cli_value, env.envVar "QT_PREFIX_PATH"] ++
      (match env.envVar "CMAKE_PREFIX_PATH" with
       | Option.some s =>
         if s ≠ "" then [Option.some ((pySplit1 env.pathSep s).headD "")] else []
       | Option.none => [])
  match candidates.findSome? (qtCandidateCheck env) with
  | Option.some p => Option.some p
  | Option.none => autodetectQtPrefix env (detect_compiler_flavor env.toSysEnv generator)

theorem pairwise_le_getLast (l : List (List Nat × Option String × List String)) (hl : l ≠ [])
    (hp : l.Pairwise (fun a b => (decide (a.1 ≤ b.1)) = true)) :
    ∀ x ∈ l, x.1 ≤ (l.getLast hl).1 := by
  induction l with
  | nil => cases hl rfl
  | cons a t ih =>
    cases t with
    | nil =>
      intro x hx
      rcases List.mem_cons.mp hx with h | h
      · rw [h]
        exact le_rfl
      · simp at h
    | cons b t2 =>
      obtain ⟨hhead, htail⟩ := List.pairwise_cons.mp hp
      intro x hx
      have hgl : (a :: b :: t2).getLast hl = (b :: t2).getLast (by simp) :=
        List.getLast_cons _
      rcases List.mem_cons.mp hx with h | h
      · rw [h, hgl]
        have := hhead ((b :: t2).getLast (by simp)) (List.getLast_mem _)
        simpa using this
      · rw [hgl]
        exact ih (by simp) htail x h

/-- `pick_best` on a non-empty candidate list returns the path of a
member whose version tuple is greatest. -/
theorem pickBest_spec (items : List (List Nat × Option String × List String)) (h : items ≠ []) :
    ∃ best ∈ items, pickBest items = Option.some best.2.2 ∧ ∀ d ∈ items, d.1 ≤ best.1 := by
  have hperm := items.mergeSort_perm (fun a b => decide (a.1 ≤ b.1))
  have hne : items.mergeSort (fun a b => decide (a.1 ≤ b.1)) ≠ [] := by
    intro hnil
    rw [hnil] at hperm
    exact h hperm.symm.eq_nil
  have hsorted : (items.mergeSort (fun a b => decide (a.1 ≤ b.1))).Pairwise
      (fun a b => (decide (a.1 ≤ b.1)) = true) := by
    apply List.sorted_mergeSort
    · intro a b c hab hbc
      simp only [decide_eq_true_eq] at hab hbc ⊢
      exact le_trans hab hbc
    · intro a b
      simp [le_total]
  refine ⟨(items.mergeSort (fun a b => decide (a.1 ≤ b.1))).getLast hne, ?_, ?_, ?_⟩
  · exact hperm.mem_iff.mp (List.getLast_mem hne)
  · rw [pickBest, List.getLast?_eq_getLast _ hne]
  · intro d hd
    exact pairwise_le_getLast _ hne hsorted d (hperm.mem_iff.mpr hd)

theorem qtCandidateCheck_fail (env : QtEnv) (o : Option String)
    (h : ∀ v, o = Option.some v → v = "" ∨ env.pathExists (env.expandPath v) = false) :
    qtCandidateCheck env o = Option.none := by
  cases o with
  | none => rfl
  | some v =>
    by_cases hve : v = ""
    · simp [qtCandidateCheck, hve]
    · rcases h v rfl with hv | hv
      · exact absurd hv hve
      · simp [qtCandidateCheck, hve, hv]

theorem pickBest_nil : pickBest [] = Option.none := by
  rw [pickBest, List.mergeSort_nil]
  rfl

/-- C1: `resolve_qt_prefix` takes the explicit CLI value when it exists
on disk; else QT_PREFIX_PATH when it exists; else the first pathsep
segment of CMAKE_PREFIX_PATH when it exists; else it autodetects under
the vendored root — absent when the root is missing or holds no marker
directory, otherwise a marker directory, flavor-matching with the
greatest version tuple when the compiler flavor is known and matched,
and with the greatest version tuple overall otherwise. -/
theorem claim_C1_resolve_qt_prefix_precedence (env : QtEnv) (cli generator : Option String) :
    (∀ v, cli = Option.some v → v ≠ "" → env.pathExists (env.expandPath v) = true →
      resolveQtPrefix env cli generator = Option.some (env.expandPath v))
    ∧ ((∀ v, cli = Option.some v → v = "" ∨ env.pathExists (env.expandPath v) = false) →
       ∀ v, env.envVar "QT_PREFIX_PATH" = Option.some v → v ≠ "" →
         env.pathExists (env.expandPath v) = true →
         resolveQtPrefix env cli generator = Option.some (env.expandPath v))
    ∧ ((∀ v, cli = Option.some v → v = "" ∨ env.pathExists (env.expandPath v) = false) →
       (∀ v, env.envVar "QT_PREFIX_PATH" = Option.some v →
         v = "" ∨ env.pathExists (env.expandPath v) = false) →
       ∀ s, env.envVar "CMAKE_PREFIX_PATH" = Option.some s → s ≠ "" →
         ∀ f, (pySplit1 env.pathSep s).headD "" = f → f ≠ "" →
           env.pathExists (env.expandPath f) = true →
           resolveQtPrefix env cli generator = Option.some (env.expandPath f))
    ∧ ((∀ v, cli = Option.some v → v = "" ∨ env.pathExists (env.expandPath v) = false) →
       (∀ v, env.envVar "QT_PREFIX_PATH" = Option.some v →
         v = "" ∨ env.pathExists (env.expandPath v) = false) →
       (∀ s, env.envVar "CMAKE_PREFIX_PATH" = Option.some s → s ≠ "" →
         (pySplit1 env.pathSep s).headD "" = "" ∨
           env.pathExists (env.expandPath ((pySplit1 env.pathSep s).headD "")) = false) →
       ((env.qtRootExists = false ∨ env.qtCmakeDirs = [] →
           resolveQtPrefix env cli generator = Option.none)
        ∧ (env.qtRootExists = true → env.qtCmakeDirs ≠ [] →
           ((∀ f, f ≠ "" → detect_compiler_flavor env.toSysEnv generator = Option.some f →
              ((∃ c ∈ qtCandidates env, c.2.1 = Option.some f) →
                ∃ c ∈ qtCandidates env,
                  resolveQtPrefix env cli generator = Option.some c.2.2
                  ∧ c.2.1 = Option.some f
                  ∧ ∀ d ∈ qtCandidates env, d.2.1 = Option.some f → d.1 ≤ c.1)
              ∧ ((∀ c ∈ qtCandidates env, c.2.1 ≠ Option.some f) →
                ∃ c ∈ qtCandidates env,
                  resolveQtPrefix env cli generator = Option.some c.2.2
                  ∧ ∀ d ∈ qtCandidates env, d.1 ≤ c.1))
            ∧ (detect_compiler_flavor env.toSysEnv generator = Option.none →
                ∃ c ∈ qtCandidates env,
                  resolveQtPrefix env cli generator = Option.some c.2.2
                  ∧ ∀ d ∈ qtCandidates env, d.1 ≤ c.1))))) := by
  refine ⟨?_, ?_, ?_, ?_⟩
  · intro v hv hne hex
    have hchk : qtCandidateCheck env cli = Option.some (env.expandPath v) := by
      rw [hv]
      simp [qtCandidateCheck, hne, hex]
    rw [resolveQtPrefix]
    simp [List.findSome?_cons, hchk]
  · intro hcli v hv hne hex
    have h1 : qtCandidateCheck env cli = Option.none := qtCandidateCheck_fail env cli hcli
    have hchk : qtCandidateCheck env (env.envVar "QT_PREFIX_PATH") =
        Option.some (env.expandPath v) := by
      rw [hv]
      simp [qtCandidateCheck, hne, hex]
    rw [resolveQtPrefix]
    simp [List.findSome?_cons, h1, hchk]
  · intro hcli hqt s hs hsne f hf hfne hex
    have h1 : qtCandidateCheck env cli = Option.none := qtCandidateCheck_fail env cli hcli
    have h2 : qtCandidateCheck env (env.envVar "QT_PREFIX_PATH") = Option.none :=
      qtCandidateCheck_fail env _ hqt
    have hchk : qtCandidateCheck env (Option.some ((pySplit1 env.pathSep s).headD "")) =
        Option.some (env.expandPath f) := by
      rw [hf]
      simp [qtCandidateCheck, hfne, hex]
    rw [resolveQtPrefix]
    simp only [List.headD_eq_head?_getD] at hchk
    simp [hs, hsne, List.findSome?_cons, h1, h2, hchk]
  · intro hcli hqt hcmake
    have h1 : qtCandidateCheck env cli = Option.none := qtCandidateCheck_fail env cli hcli
    have h2 : qtCandidateCheck env (env.envVar "QT_PREFIX_PATH") = Option.none :=
      qtCandidateCheck_fail env _ hqt
    have hr : resolveQtPrefix env cli generator =
        autodetectQtPrefix env (detect_compiler_flavor env.toSysEnv generator) := by
      rw [resolveQtPrefix]
      cases henv : env.envVar "CMAKE_PREFIX_PATH" with
      | none => simp [henv, List.findSome?_cons, h1, h2]
      | some s =>
        by_cases hs : s = ""
        · simp [henv, hs, List.findSome?_cons, h1, h2]
        · have h3 : qtCandidateCheck env
              (Option.some ((pySplit1 env.pathSep s).headD "")) = Option.none := by
            apply qtCandidateCheck_fail
            intro v hv
            injection hv with hv
            rw [← hv]
            exact hcmake s henv hs
          simp only [List.headD_eq_head?_getD] at h3
          simp [henv, hs, List.findSome?_cons, h1, h2, h3]
    constructor
    · intro habsent
      rw [hr, autodetectQtPrefix]
      rcases habsent with h | h
      · rw [if_pos (by simp [h])]
      · by_cases hroot : env.qtRootExists = true
        · rw [if_neg (by simp [hroot])]
          have hce : (qtCandidates env).isEmpty = true := by simp [qtCandidates, h]
          simp [hce]
        · rw [if_pos (by simpa using hroot)]
    · intro hroot hdirs
      have hcne : qtCandidates env ≠ [] := by
        rw [qtCandidates]
        simpa using hdirs
      have hbase : autodetectQtPrefix env (detect_compiler_flavor env.toSysEnv generator) =
          (if pyTruthy (detect_compiler_flavor env.toSysEnv generator) then
            match pickBest ((qtCandidates env).filter
                (fun item => item.2.1 == detect_compiler_flavor env.toSysEnv generator)) with
            | Option.some chosen => Option.some chosen
            | Option.none => pickBest (qtCandidates env)
          else pickBest (qtCandidates env)) := by
        rw [autodetectQtPrefix, if_neg (by simp [hroot]), if_neg (by simp [hcne])]
      constructor
      · intro f hfne hflavor
        constructor
        · rintro ⟨c0, hc0, hc0f⟩
          have hfmem : c0 ∈ (qtCandidates env).filter
              (fun item => item.2.1 == Option.some f) := by
            rw [List.mem_filter]
            exact ⟨hc0, by simp [hc0f]⟩
          have hfiltne : (qtCandidates env).filter
              (fun item => item.2.1 == Option.some f) ≠ [] := by
            intro hnil
            rw [hnil] at hfmem
            simp at hfmem
          obtain ⟨best, hbmem, hbpick, hbmax⟩ := pickBest_spec _ hfiltne
          refine ⟨best, (List.mem_filter.mp hbmem).1, ?_, ?_, ?_⟩
          · rw [hr, hbase, if_pos (by simp [hflavor, pyTruthy, hfne])]
            rw [hflavor, hbpick]
          · have := (List.mem_filter.mp hbmem).2
            simpa using this
          · intro d hd hdf
            exact hbmax d (List.mem_filter.mpr ⟨hd, by simp [hdf]⟩)
        · intro hnone
          have hfilt : (qtCandidates env).filter
              (fun item => item.2.1 == Option.some f) = [] := by
            rw [List.filter_eq_nil]
            intro c hc
            simp [hnone c hc]
          obtain ⟨best, hbmem, hbpick, hbmax⟩ := pickBest_spec _ hcne
          refine ⟨best, hbmem, ?_, hbmax⟩
          rw [hr, hbase, if_pos (by simp [hflavor, pyTruthy, hfne])]
          rw [hflavor, hfilt, pickBest_nil, hbpick]
      · intro hflavor
        obtain ⟨best, hbmem, hbpick, hbmax⟩ := pickBest_spec _ hcne
        refine ⟨best, hbmem, ?_, hbmax⟩
        rw [hr, hbase, if_neg (by simp [hflavor, pyTruthy]), hbpick]

/-- A concrete environment for exercising the autodetection scan: no CLI
or environment prefixes, a g++ on the search path (mingw flavor), and a
vendored root holding a mingw 6.8.0 and an msvc 6.9.1 Qt. -/
def qtEnvW : QtEnv :=
  { platform := "win32",
    envVar := fun _ => Option.none,
    which := fun t => if t = "g++" then Option.some "C:/mingw64/bin/g++.exe" else Option.none,
    fileExists := fun _ => false,
    vswhereJson := Option.none,
    vswhereVersionOut := Option.none,
    expandPath := fun s => [s],
    pathExists := fun _ => false,
    pathSep := ';',
    qtRootExists := true,
    qtCmakeDirs := [["third_party", "qt6", "6.8.0", "mingw_64", "lib", "cmake", "Qt6"],
                    ["third_party", "qt6", "6.9.1", "msvc2022_64", "lib", "cmake", "Qt6"]] }

/-- Witness for C1: with no explicit prefixes and a mingw toolchain, the
resolver autodetects the flavor-matching vendored Qt (6.8.0 mingw, even
though 6.9.1 msvc is newer). -/
theorem claim_C1_resolve_qt_prefix_precedence_witness :
    ∃ c ∈ qtCandidates qtEnvW,
      resolveQtPrefix qtEnvW Option.none Option.none = Option.some c.2.2
      ∧ c.2.1 = Option.some "mingw"
      ∧ ∀ d ∈ qtCandidates qtEnvW, d.2.1 = Option.some "mingw" → d.1 ≤ c.1 :=
  ((((claim_C1_resolve_qt_prefix_precedence qtEnvW Option.none Option.none).2.2.2
      (by intro v hv; cases hv) (by intro v hv; cases hv) (by intro s hs; cases hs)).2
    (by decide) (by decide)).1 "mingw" (by decide) (by decide)).1
    ⟨([6, 8, 0], Option.some "mingw", ["third_party", "qt6", "6.8.0", "mingw_64"]),
      by decide, by decide⟩

/-- Witness for C7 at the regression-guard input: "6.10.1" is selected
and is the stripped form of a maximal element first appearing at index
one. -/
theorem claim_C7_latest_version_selection_witness :
    ∃ pre v post, (["6.5.0", "6.10.1", "6.9.9"] : List String) = pre ++ v :: post
      ∧ parse_version_string v ≠ []
      ∧ "6.10.1" = pyRstripSlashes v
      ∧ (∀ u ∈ (["6.5.0", "6.10.1", "6.9.9"] : List String),
          parse_version_string u ≤ parse_version_string v)
      ∧ (∀ u ∈ pre, parse_version_string u < parse_version_string v) :=
  (claim_C7_latest_version_selection ["6.5.0", "6.10.1", "6.9.9"]).2.1 "6.10.1" (by decide)

/-! ## TargetResolver (`dev_tool/project.py`)

The build-directory filesystem surface: whether the host is Windows
(`os.name == "nt"`), path existence, the text of `CMakeCache.txt` under a
given build directory when it exists, and the results of
`build_dir.rglob(pattern)`. -/

structure BuildEnv where
  isWindows : Bool
  pathExists : List String → Bool
  cacheText : List String → Option String
  rglob : String → List (List String)

/-- `project.is_multi_config`: multi-config marker in the generator name,
or CMAKE_CONFIGURATION_TYPES recorded in the build cache. -/
def is_multi_config (env : BuildEnv) (generator : Option String) (build_dir : List String) :
    Bool :=
  (pyTruthy generator &&
    (pyIn "Visual Studio" (generator.getD "") || pyIn "Xcode" (generator.getD "") ||
      pyIn "Multi-Config" (generator.getD ""))) ||
  (match env.cacheText build_dir with
   | Option.some text => pyIn "CMAKE_CONFIGURATION_TYPES" text
   | Option.none => false)

/-- `project.find_built_binary`: probe the fixed candidate locations in
order, fall back to a recursive search, and fail naming the root. -/
def find_built_binary (env : BuildEnv) (build_dir : List String) (target : String)
    (generator : Option String) (build_type : String) (config_override : Option String) :
    Except String (List String) :=
  let exe_name := target ++ (if env.isWindows then ".exe" else "")
  let multi := is_multi_config env generator build_dir
  let config := pyOr config_override (if multi then Option.some build_type else Option.none)
  let candidates := [build_dir ++ [exe_name], build_dir ++ [target, exe_name]] ++
    (match config with
     | Option.some c =>
       if c ≠ "" then [build_dir ++ [c, exe_name], build_dir ++ [c, target, exe_name]] else []
     | Option.none => [])
  match candidates.find? env.pathExists with
  | Option.some candidate => Except.ok candidate
  | Option.none =>
    match env.rglob exe_name with
    | m :: _ => Except.ok m
    | [] =>
      Except.error ("Executable for target '" ++ target ++ "' not found in " ++
        ppathStr build_dir)

/-- C9: `find_built_binary` appends the platform executable suffix,
probes buildDir/name, buildDir/target/name, and — only when a
configuration is in effect — buildDir/config/name and
buildDir/config/target/name, returning the first existing candidate;
otherwise the first recursive-search match; otherwise a not-found error
naming the search root and the target. -/
theorem claim_C9_find_built_binary_probes (env : BuildEnv) (build_dir : List String)
    (target : String) (generator : Option String) (build_type : String)
    (config_override : Option String) :
    (let exe_name := target ++ (if env.isWindows then ".exe" else "")
     let config := pyOr config_override
       (if is_multi_config env generator build_dir then Option.some build_type else Option.none)
     let probes := [build_dir ++ [exe_name], build_dir ++ [target, exe_name]] ++
       (match config with
        | Option.some c =>
          if c ≠ "" then [build_dir ++ [c, exe_name], build_dir ++ [c, target, exe_name]]
          else []
        | Option.none => [])
     (∀ c, probes.find? env.pathExists = Option.some c →
        find_built_binary env build_dir target generator build_type config_override =
          Except.ok c)
     ∧ (probes.find? env.pathExists = Option.none →
        ∀ m ms, env.rglob exe_name = m :: ms →
          find_built_binary env build_dir target generator build_type config_override =
            Except.ok m)
     ∧ (probes.find? env.pathExists = Option.none → env.rglob exe_name = [] →
        ∃ e, find_built_binary env build_dir target generator build_type config_override =
            Except.error e
          ∧ pyIn (ppathStr build_dir) e = true ∧ pyIn target e = true)) := by
  refine ⟨?_, ?_, ?_⟩
  · intro c hc
    rw [find_built_binary]
    simp only [hc]
  · intro hnone m ms hg
    rw [find_built_binary]
    simp only [hnone, hg]
  · intro hnone hg
    rw [find_built_binary]
    simp only [hnone, hg]
    refine ⟨_, rfl, ?_, ?_⟩
    · have hshape : "Executable for target '" ++ target ++ "' not found in " ++
          ppathStr build_dir =
          ("Executable for target '" ++ target ++ "' not found in ") ++
            (ppathStr build_dir ++ "") := by
        simp [String.append_assoc]
      rw [hshape]
      exact pyIn_sandwich _ _ _
    · have hshape : "Executable for target '" ++ target ++ "' not found in " ++
          ppathStr build_dir =
          "Executable for target '" ++ (target ++ ("' not found in " ++ ppathStr build_dir)) := by
        simp [String.append_assoc]
      rw [hshape]
      exact pyIn_sandwich _ _ _

/-- Witness for C9: with nothing on disk and a single recursive-search
hit, the search falls back to it; with nothing at all, the error names
the root and target. -/
theorem claim_C9_find_built_binary_probes_witness :
    (find_built_binary
      { isWindows := false, pathExists := fun _ => false,
        cacheText := fun _ => Option.none,
        rglob := fun _ => [["build", "app", "sub", "demo"]] }
      ["build"] "demo" Option.none "Debug" Option.none =
      Except.ok ["build", "app", "sub", "demo"])
    ∧ ∃ e, find_built_binary
        { isWindows := false, pathExists := fun _ => false,
          cacheText := fun _ => Option.none, rglob := fun _ => [] }
        ["build"] "demo" Option.none "Debug" Option.none = Except.error e
      ∧ pyIn (ppathStr ["build"]) e = true ∧ pyIn "demo" e = true :=
  ⟨(claim_C9_find_built_binary_probes
      { isWindows := false, pathExists := fun _ => false,
        cacheText := fun _ => Option.none,
        rglob := fun _ => [["build", "app", "sub", "demo"]] }
      ["build"] "demo" Option.none "Debug" Option.none).2.1 (by decide)
      ["build", "app", "sub", "demo"] [] (by decide),
   (claim_C9_find_built_binary_probes
      { isWindows := false, pathExists := fun _ => false,
        cacheText := fun _ => Option.none, rglob := fun _ => [] }
      ["build"] "demo" Option.none "Debug" Option.none).2.2 (by decide) (by decide)⟩

/-! ## SettingsStore (`dev_tool/config.py`)

Python dictionaries are association lists with unique keys (`dictSet`
replaces in place, as dict assignment does).  `root` stands for
`str(ROOT)` — the absolute repository root computed at import time — and
`home` for the home directory `Path.expanduser` resolves `~` against
(absent when no home is known; `~user` lookups are environment-dependent
and modelled as returning the path unchanged). -/

def keysOf (d : List (String × PyVal)) : List String := d.map Prod.fst

def dictGet : List (String × PyVal) → String → Option PyVal
  | [], _ => Option.none
  | kv :: rest, k => if kv.1 = k then Option.some kv.2 else dictGet rest k

def dictContains (d : List (String × PyVal)) (k : String) : Bool := (dictGet d k).isSome

/-- Dict assignment: replace the first entry in place, else append. -/
def dictSet : List (String × PyVal) → String → PyVal → List (String × PyVal)
  | [], k, v => [(k, v)]
  | kv :: rest, k, v => if kv.1 = k then (k, v) :: rest else kv :: dictSet rest k v

/-- `d.update(u)`: assign every pair of `u` into `d`, in order. -/
def dictUpdate : List (String × PyVal) → List (String × PyVal) → List (String × PyVal)
  | d, [] => d
  | d, kv :: rest => dictUpdate (dictSet d kv.1 kv.2) rest

/-- The value the last assignment of key `k` in the pair list would
leave (used to reason about iterated assignments). -/
def lastVal : List (String × PyVal) → String → Option PyVal
  | [], _ => Option.none
  | kv :: rest, k =>
    match lastVal rest k with
    | Option.some v => Option.some v
    | Option.none => if kv.1 = k then Option.some kv.2 else Option.none

/-- The root of a POSIX path string: "//" (kept special by pathlib), "/"
or none. -/
def pyPathRoot (s : String) : String :=
  if pyStartsWith s "//" && !(pyStartsWith s "///") then "//"
  else if pyStartsWith s "/" then "/"
  else ""

/-- The components of a POSIX path string: split on "/", dropping empty
and "." segments, as `pathlib.PurePosixPath` does. -/
def pyPathComps (s : String) : List String :=
  (pySplit1 '/' s).filter (fun c => !(c == "" || c == "."))

def pyPathUnparse (root : String) (comps : List String) : String :=
  if root = "" && comps.isEmpty then "." else root ++ String.intercalate "/" comps

/-- `Path.expanduser`: replace a leading bare `~` by the home directory
when one is known (`~user` lookups are environment-dependent and
modelled as leaving the path unchanged). -/
def pyExpanduser (home : Option String) (root : String) (comps : List String) :
    String × List String :=
  match home, comps with
  | Option.some h, c :: rest =>
    if root = "" ∧ c = "~" then (pyPathRoot h, pyPathComps h ++ rest) else (root, comps)
  | _, _ => (root, comps)

/-- `str(Path(s).expanduser())` over the POSIX path model. -/
def pyNormPath (home : Option String) (s : String) : String :=
  let rc := pyExpanduser home (pyPathRoot s) (pyPathComps s)
  pyPathUnparse rc.1 rc.2

/-- `PurePosixPath.is_absolute`. -/
def pyIsAbs (s : String) : Bool := pyStartsWith s "/"

def DEFAULT_RUN_TARGETS : List PyVal := [PyVal.str "sample_app", PyVal.str "sample_cli"]

/-- `constants.DEFAULT_SETTINGS`, with `root` standing for `str(ROOT)`. -/
def DEFAULT_SETTINGS (root : String) : List (String × PyVal) :=
  [("build_dir", PyVal.str (root ++ "/build")),
   ("build_type", PyVal.str "Debug"),
   ("qt_prefix", PyVal.none),
   ("generator", PyVal.none),
   ("download_qt_output_dir", PyVal.str (root ++ "/third_party/qt6")),
   ("download_qt_version", PyVal.none),
   ("download_qt_compiler", PyVal.none),
   ("default_run_targets", PyVal.list DEFAULT_RUN_TARGETS)]

def defaultValOf (root : String) (k : String) : PyVal :=
  match dictGet (DEFAULT_SETTINGS root) k with
  | Option.some v => v
  | Option.none => PyVal.none

/-- `config._normalized_setting`: key-specific normalization (`None`
passes through; path keys are tilde-expanded strings; the run-target
list accepts a delimited string or a list). -/
def _normalized_setting (home : Option String) (key : String) (value : PyVal) : PyVal :=
  match value with
  | PyVal.none => PyVal.none
  | _ =>
    if key = "build_dir" || key = "qt_prefix" || key = "download_qt_output_dir" then
      PyVal.str (pyNormPath home (pyStr value))
    else if key = "default_run_targets" then
      match value with
      | PyVal.str s =>
        PyVal.list (((pySplit1 ',' (pyReplaceChar ';' ',' s)).map pyStrip).filterMap
          (fun p => if p = "" then Option.none else Option.some (PyVal.str p)))
      | PyVal.list xs =>
        PyVal.list (xs.filterMap (fun item =>
          if pyStrip (pyStr item) = "" then Option.none
          else Option.some (PyVal.str (pyStr item))))
      | _ => PyVal.list DEFAULT_RUN_TARGETS
    else PyVal.str (pyStr value)

/-- The states the persisted settings file can be in. -/
inductive SettingsFile where
  | missing
  | unparsable
  | parsed (v : PyVal)

/-- `config._load_settings_file`: the raw override dict — empty on a
missing file, any read or parse failure, or non-object content. -/
def _load_settings_file (fs : SettingsFile) : List (String × PyVal) :=
  match fs with
  | SettingsFile.missing => []
  | SettingsFile.unparsable => []
  | SettingsFile.parsed (PyVal.dict d) => d
  | SettingsFile.parsed _ => []

/-- The loop of `config._merge_settings` over the user pairs. -/
def _merge_settings_from (home : Option String) (root : String) :
    List (String × PyVal) → List (String × PyVal) → List (String × PyVal)
  | acc, [] => acc
  | acc, kv :: rest =>
    _merge_settings_from home root
      (if dictContains (DEFAULT_SETTINGS root) kv.1 then
        dictSet acc kv.1 (_normalized_setting home kv.1 kv.2)
      else acc) rest

/-- `config._merge_settings`: defaults overwritten key-by-key by the
normalized known-key entries of the user dict. -/
def _merge_settings (home : Option String) (root : String)
    (user_values : List (String × PyVal)) : List (String × PyVal) :=
  _merge_settings_from home root (DEFAULT_SETTINGS root) user_values

/-- `config.save_settings`: the persisted dict — exactly the known keys,
each from `settings` or its built-in default. -/
def save_settings (root : String) (settings : List (String × PyVal)) :
    List (String × PyVal) :=
  (DEFAULT_SETTINGS root).map (fun dkv =>
    (dkv.1, match dictGet settings dkv.1 with
            | Option.some v => v
            | Option.none => dkv.2))

/-- The unset-loop body of `set_settings`: reset a known key to its
built-in default. -/
def unsetApply (root : String) (cur : List (String × PyVal)) (k : String) :
    List (String × PyVal) :=
  if dictContains (DEFAULT_SETTINGS root) k then dictSet cur k (defaultValOf root k) else cur

/-- The updates-loop body of `set_settings`: assign the normalized value
of a known key. -/
def updateApply (home : Option String) (root : String) (cur : List (String × PyVal))
    (kv : String × PyVal) : List (String × PyVal) :=
  if dictContains (DEFAULT_SETTINGS root) kv.1 then
    dictSet cur kv.1 (_normalized_setting home kv.1 kv.2)
  else cur

/-- `config.set_settings`: reset the unset keys, assign the normalized
known-key updates, fold into the user settings, and persist; returns the
new in-memory view and the persisted file. -/
def set_settings (home : Option String) (root : String) (updates : List (String × PyVal))
    (unset : List String) (user_settings : List (String × PyVal)) :
    List (String × PyVal) × List (String × PyVal) :=
  let current := unset.foldl (unsetApply root) user_settings
  let current2 := updates.foldl (updateApply home root) current
  let new_user := dictUpdate user_settings current2
  (new_user, save_settings root new_user)

theorem dictGet_dictSet_same (d : List (String × PyVal)) (k : String) (v : PyVal) :
    dictGet (dictSet d k v) k = Option.some v := by
  induction d with
  | nil => simp [dictSet, dictGet]
  | cons kv rest ih =>
    rw [dictSet]
    by_cases h : kv.1 = k
    · rw [if_pos h, dictGet, if_pos rfl]
    · rw [if_neg h, dictGet, if_neg h]
      exact ih

theorem dictGet_dictSet_other (d : List (String × PyVal)) (k k2 : String) (v : PyVal)
    (h : k2 ≠ k) : dictGet (dictSet d k v) k2 = dictGet d k2 := by
  induction d with
  | nil => simp [dictSet, dictGet, Ne.symm h]
  | cons kv rest ih =>
    rw [dictSet]
    by_cases hk : kv.1 = k
    · rw [if_pos hk, dictGet, dictGet, if_neg (fun he => h he.symm), hk,
        if_neg (fun he => h he.symm)]
    · rw [if_neg hk, dictGet, dictGet]
      by_cases hk2 : kv.1 = k2
      · rw [if_pos hk2, if_pos hk2]
      · rw [if_neg hk2, if_neg hk2]
        exact ih

theorem keysOf_dictSet_mem (d : List (String × PyVal)) (k : String) (v : PyVal)
    (h : dictContains d k = true) : keysOf (dictSet d k v) = keysOf d := by
  induction d with
  | nil => simp [dictContains, dictGet] at h
  | cons kv rest ih =>
    rw [dictSet]
    by_cases hk : kv.1 = k
    · rw [if_pos hk]
      simp [keysOf, hk]
    · rw [if_neg hk]
      simp only [keysOf, List.map_cons]
      rw [dictContains, dictGet, if_neg hk] at h
      have := ih h
      rw [keysOf] at this
      rw [this]
      rfl

theorem dictContains_dictSet (d : List (String × PyVal)) (k k2 : String) (v : PyVal)
    (h : dictContains d k2 = true) : dictContains (dictSet d k v) k2 = true := by
  by_cases hk : k2 = k
  · rw [dictContains, hk, dictGet_dictSet_same]
    rfl
  · rw [dictContains, dictGet_dictSet_other d k k2 v hk]
    exact h

theorem dictGet_isSome_iff_mem (d : List (String × PyVal)) (k : String) :
    dictContains d k = true ↔ k ∈ keysOf d := by
  induction d with
  | nil => simp [dictContains, dictGet, keysOf]
  | cons kv rest ih =>
    by_cases hk : kv.1 = k
    · simp [dictContains, dictGet, keysOf, hk]
    · have hstep : dictContains (kv :: rest) k = dictContains rest k := by
        rw [dictContains, dictContains, dictGet, if_neg hk]
      rw [hstep, ih]
      simp only [keysOf, List.map_cons, List.mem_cons]
      constructor
      · exact fun hm => Or.inr hm
      · rintro (he | hm)
        · exact absurd he.symm hk
        · exact hm

theorem dictGet_none_of_not_mem (d : List (String × PyVal)) (k : String)
    (h : ¬ k ∈ keysOf d) : dictGet d k = Option.none := by
  rcases hd : dictGet d k with _ | v
  · rfl
  · exact absurd ((dictGet_isSome_iff_mem d k).mp (by rw [dictContains, hd]; rfl)) h

theorem lastVal_none_of_get_none (d : List (String × PyVal)) (k : String)
    (h : dictGet d k = Option.none) : lastVal d k = Option.none := by
  induction d with
  | nil => rfl
  | cons kv rest ih =>
    rw [dictGet] at h
    by_cases hk : kv.1 = k
    · rw [if_pos hk] at h
      cases h
    · rw [if_neg hk] at h
      rw [lastVal, ih h, if_neg hk]

theorem lastVal_eq_dictGet_of_nodup (d : List (String × PyVal)) (k : String)
    (h : (keysOf d).Nodup) : lastVal d k = dictGet d k := by
  induction d with
  | nil => rfl
  | cons kv rest ih =>
    rw [keysOf, List.map_cons, List.nodup_cons] at h
    rw [lastVal, dictGet, ih h.2]
    by_cases hk : kv.1 = k
    · have hrest : dictGet rest k = Option.none := by
        apply dictGet_none_of_not_mem
        rw [← hk]
        exact h.1
      rw [hrest]
    · rcases hd : dictGet rest k with _ | v
      · simp [hd]
      · simp [hd, hk]

theorem dictGet_dictUpdate (u : List (String × PyVal)) :
    ∀ (d : List (String × PyVal)) (k : String),
    dictGet (dictUpdate d u) k =
      match lastVal u k with
      | Option.some v => Option.some v
      | Option.none => dictGet d k := by
  induction u with
  | nil => intro d k; rfl
  | cons kv rest ih =>
    intro d k
    rw [dictUpdate, ih, lastVal]
    rcases hl : lastVal rest k with _ | v
    · by_cases hk : kv.1 = k
      · rw [if_pos hk, hk, dictGet_dictSet_same]
      · rw [if_neg hk, dictGet_dictSet_other d kv.1 k kv.2 (fun he => hk he.symm)]
    · rfl

/-- The value the merge loop would leave for key `k`: the normalization
of the last known-key entry, when one exists. -/
def lastKnown (home : Option String) (root : String) :
    List (String × PyVal) → String → Option PyVal
  | [], _ => Option.none
  | kv :: rest, k =>
    match lastKnown home root rest k with
    | Option.some v => Option.some v
    | Option.none =>
      if kv.1 = k ∧ dictContains (DEFAULT_SETTINGS root) kv.1 = true then
        Option.some (_normalized_setting home kv.1 kv.2)
      else Option.none

theorem mergeFrom_get (home : Option String) (root : String) :
    ∀ (u acc : List (String × PyVal)) (k : String),
    dictGet (_merge_settings_from home root acc u) k =
      match lastKnown home root u k with
      | Option.some v => Option.some v
      | Option.none => dictGet acc k := by
  intro u
  induction u with
  | nil => intro acc k; rfl
  | cons kv rest ih =>
    intro acc k
    rw [_merge_settings_from, ih, lastKnown]
    rcases hl : lastKnown home root rest k with _ | v
    · by_cases hc : dictContains (DEFAULT_SETTINGS root) kv.1 = true
      · rw [if_pos hc]
        by_cases hk : kv.1 = k
        · rw [if_pos ⟨hk, hc⟩, hk, dictGet_dictSet_same]
        · rw [if_neg (fun hand => hk hand.1),
            dictGet_dictSet_other acc kv.1 k _ (fun he => hk he.symm)]
      · rw [if_neg hc, if_neg (fun hand => hc hand.2)]
    · rfl

theorem keysOf_mergeFrom (home : Option String) (root : String) :
    ∀ (u acc : List (String × PyVal)),
    (∀ k, dictContains (DEFAULT_SETTINGS root) k = true → dictContains acc k = true) →
    keysOf (_merge_settings_from home root acc u) = keysOf acc := by
  intro u
  induction u with
  | nil => intro acc _; rfl
  | cons kv rest ih =>
    intro acc hinv
    rw [_merge_settings_from]
    by_cases hc : dictContains (DEFAULT_SETTINGS root) kv.1 = true
    · rw [if_pos hc]
      rw [ih (dictSet acc kv.1 (_normalized_setting home kv.1 kv.2))
        (fun k hk => dictContains_dictSet acc kv.1 k _ (hinv k hk))]
      exact keysOf_dictSet_mem acc kv.1 _ (hinv kv.1 hc)
    · rw [if_neg hc]
      exact ih acc hinv

theorem keysOf_defaults (root : String) :
    keysOf (DEFAULT_SETTINGS root) =
      ["build_dir", "build_type", "qt_prefix", "generator", "download_qt_output_dir",
       "download_qt_version", "download_qt_compiler", "default_run_targets"] := rfl

theorem keysOf_merge (home : Option String) (root : String) (u : List (String × PyVal)) :
    keysOf (_merge_settings home root u) = keysOf (DEFAULT_SETTINGS root) :=
  keysOf_mergeFrom home root u (DEFAULT_SETTINGS root) (fun _ hk => hk)

theorem dictGet_save (root : String) (s : List (String × PyVal)) (k : String) :
    dictGet (save_settings root s) k =
      match dictGet (DEFAULT_SETTINGS root) k with
      | Option.some dv => Option.some (match dictGet s k with
                                       | Option.some v => v
                                       | Option.none => dv)
      | Option.none => Option.none := by
  rw [save_settings]
  generalize DEFAULT_SETTINGS root = dl
  induction dl with
  | nil => rfl
  | cons dkv rest ih =>
    rw [List.map_cons, dictGet, dictGet]
    by_cases hk : dkv.1 = k
    · rw [if_pos hk, if_pos hk, hk]
    · rw [if_neg hk, if_neg hk, ih]

theorem keysOf_save (root : String) (s : List (String × PyVal)) :
    keysOf (save_settings root s) = keysOf (DEFAULT_SETTINGS root) := by
  rw [save_settings, keysOf, keysOf, List.map_map]
  rfl

theorem lastKnown_none_of_get_none (home : Option String) (root : String)
    (d : List (String × PyVal)) (k : String) (h : dictGet d k = Option.none) :
    lastKnown home root d k = Option.none := by
  induction d with
  | nil => rfl
  | cons kv rest ih =>
    rw [dictGet] at h
    by_cases hk : kv.1 = k
    · rw [if_pos hk] at h
      cases h
    · rw [if_neg hk] at h
      rw [lastKnown, ih h, if_neg (fun hand => hk hand.1)]

theorem lastKnown_nodup (home : Option String) (root : String) (d : List (String × PyVal))
    (k : String) (hnd : (keysOf d).Nodup) :
    lastKnown home root d k =
      match dictGet d k with
      | Option.some v =>
        if dictContains (DEFAULT_SETTINGS root) k = true then
          Option.some (_normalized_setting home k v)
        else Option.none
      | Option.none => Option.none := by
  induction d with
  | nil => rfl
  | cons kv rest ih =>
    rw [keysOf, List.map_cons, List.nodup_cons] at hnd
    rw [lastKnown, dictGet, ih hnd.2]
    by_cases hk : kv.1 = k
    · have hrest : dictGet rest k = Option.none := by
        apply dictGet_none_of_not_mem
        rw [← hk]
        exact hnd.1
      rw [hrest, if_pos hk]
      by_cases hc : dictContains (DEFAULT_SETTINGS root) kv.1 = true
      · rw [if_pos ⟨hk, hc⟩]
        simp [← hk, hc]
      · rw [if_neg (fun hand => hc hand.2)]
        simp [← hk, hc]
    · rw [if_neg hk]
      rcases hd : dictGet rest k with _ | v
      · simp [hd, hk]
      · by_cases hck : dictContains (DEFAULT_SETTINGS root) k = true <;> simp [hd, hk, hck]

theorem lastKnown_mem (home : Option String) (root : String) (d : List (String × PyVal))
    (k : String) (v0 : PyVal) (h : lastKnown home root d k = Option.some v0) :
    ∃ v, (k, v) ∈ d ∧ dictContains (DEFAULT_SETTINGS root) k = true
      ∧ v0 = _normalized_setting home k v := by
  induction d with
  | nil => cases h
  | cons kv rest ih =>
    rw [lastKnown] at h
    rcases hl : lastKnown home root rest k with _ | v1
    · rw [hl] at h
      by_cases hcond : kv.1 = k ∧ dictContains (DEFAULT_SETTINGS root) kv.1 = true
      · rw [if_pos hcond] at h
        injection h with h
        refine ⟨kv.2, ?_, ?_, ?_⟩
        · rw [← hcond.1]
          simp
        · rw [← hcond.1]
          exact hcond.2
        · rw [← h, ← hcond.1]
      · rw [if_neg hcond] at h
        cases h
    · rw [hl] at h
      injection h with h
      rw [h] at hl
      obtain ⟨v, hv, hc, hn⟩ := ih hl
      exact ⟨v, by simp [hv], hc, hn⟩

/-- C4: loading the settings is total and yields exactly the defaults on
a missing, unreadable/unparsable, or non-object file; on a valid object,
keys absent from the file keep their default and unknown keys are
ignored (the merged view holds exactly the known keys). -/
theorem claim_C4_load_settings_resilience (home : Option String) (root : String)
    (fs : SettingsFile) :
    (fs = SettingsFile.missing →
      _merge_settings home root (_load_settings_file fs) = DEFAULT_SETTINGS root)
    ∧ (fs = SettingsFile.unparsable →
      _merge_settings home root (_load_settings_file fs) = DEFAULT_SETTINGS root)
    ∧ (∀ v, fs = SettingsFile.parsed v → (∀ d, v ≠ PyVal.dict d) →
      _merge_settings home root (_load_settings_file fs) = DEFAULT_SETTINGS root)
    ∧ (∀ d, fs = SettingsFile.parsed (PyVal.dict d) →
        keysOf (_merge_settings home root (_load_settings_file fs)) =
          keysOf (DEFAULT_SETTINGS root)
        ∧ ∀ k, dictGet d k = Option.none →
            dictGet (_merge_settings home root (_load_settings_file fs)) k =
              dictGet (DEFAULT_SETTINGS root) k) := by
  refine ⟨?_, ?_, ?_, ?_⟩
  · intro h
    rw [h]
    rfl
  · intro h
    rw [h]
    rfl
  · intro v h hnd
    rw [h]
    cases v with
    | dict d => exact absurd rfl (hnd d)
    | none => rfl
    | str s => rfl
    | int n => rfl
    | bool b => rfl
    | list xs => rfl
  · intro d h
    rw [h]
    have hload : _load_settings_file (SettingsFile.parsed (PyVal.dict d)) = d := rfl
    rw [hload]
    refine ⟨keysOf_merge home root d, ?_⟩
    intro k hk
    rw [_merge_settings, mergeFrom_get home root d (DEFAULT_SETTINGS root) k,
      lastKnown_none_of_get_none home root d k hk]

/-- Witness for C4 at a file holding one unknown and one known key, and
at an unparsable file. -/
theorem claim_C4_load_settings_resilience_witness :
    (keysOf (_merge_settings Option.none "/repo"
        (_load_settings_file (SettingsFile.parsed
          (PyVal.dict [("bogus", PyVal.str "x"), ("build_type", PyVal.str "Release")])))) =
      keysOf (DEFAULT_SETTINGS "/repo"))
    ∧ (dictGet (_merge_settings Option.none "/repo"
        (_load_settings_file (SettingsFile.parsed
          (PyVal.dict [("bogus", PyVal.str "x"), ("build_type", PyVal.str "Release")]))))
        "qt_prefix" = dictGet (DEFAULT_SETTINGS "/repo") "qt_prefix")
    ∧ _merge_settings Option.none "/repo" (_load_settings_file SettingsFile.unparsable) =
        DEFAULT_SETTINGS "/repo" :=
  ⟨((claim_C4_load_settings_resilience Option.none "/repo" (SettingsFile.parsed
      (PyVal.dict [("bogus", PyVal.str "x"), ("build_type", PyVal.str "Release")]))).2.2.2
      [("bogus", PyVal.str "x"), ("build_type", PyVal.str "Release")] rfl).1,
   ((claim_C4_load_settings_resilience Option.none "/repo" (SettingsFile.parsed
      (PyVal.dict [("bogus", PyVal.str "x"), ("build_type", PyVal.str "Release")]))).2.2.2
      [("bogus", PyVal.str "x"), ("build_type", PyVal.str "Release")] rfl).2
      "qt_prefix" (by rfl),
   (claim_C4_load_settings_resilience Option.none "/repo" SettingsFile.unparsable).2.1 rfl⟩

theorem dictGet_mem (d : List (String × PyVal)) (k : String) (v : PyVal)
    (h : dictGet d k = Option.some v) : (k, v) ∈ d := by
  induction d with
  | nil => cases h
  | cons kv rest ih =>
    rw [dictGet] at h
    by_cases hk : kv.1 = k
    · rw [if_pos hk] at h
      injection h with h
      have : kv = (k, v) := by
        cases kv
        simp at hk h
        simp [hk, h]
      rw [this]
      exact List.mem_cons_self _ _
    · rw [if_neg hk] at h
      exact List.mem_cons_of_mem kv (ih h)

theorem dictUpdate_self_get (d c : List (String × PyVal)) (k : String)
    (hnd : (keysOf c).Nodup) (hkeys : keysOf c = keysOf d) :
    dictGet (dictUpdate d c) k = dictGet c k := by
  rw [dictGet_dictUpdate, lastVal_eq_dictGet_of_nodup c k hnd]
  rcases hc : dictGet c k with _ | v
  · have hn : ¬ k ∈ keysOf c := by
      intro hm
      have := (dictGet_isSome_iff_mem c k).mpr hm
      rw [dictContains, hc] at this
      cases this
    rw [hkeys] at hn
    exact dictGet_none_of_not_mem d k hn
  · rfl

theorem unsetFold_get_skip (root : String) (ks : List String) :
    ∀ (acc : List (String × PyVal)) (k : String),
      dictContains (DEFAULT_SETTINGS root) k = false →
      dictGet (ks.foldl (unsetApply root) acc) k = dictGet acc k := by
  induction ks with
  | nil => intro acc k _; rfl
  | cons k0 rest ih =>
    intro acc k hk
    rw [List.foldl_cons, ih _ k hk, unsetApply]
    by_cases hc : dictContains (DEFAULT_SETTINGS root) k0 = true
    · rw [if_pos hc]
      have hne : k ≠ k0 := by
        intro he
        rw [he, hc] at hk
        cases hk
      exact dictGet_dictSet_other acc k0 k _ hne
    · rw [if_neg hc]

theorem unsetFold_get_notmem (root : String) (ks : List String) :
    ∀ (acc : List (String × PyVal)) (k : String), ¬ k ∈ ks →
      dictGet (ks.foldl (unsetApply root) acc) k = dictGet acc k := by
  induction ks with
  | nil => intro acc k _; rfl
  | cons k0 rest ih =>
    intro acc k hk
    rw [List.foldl_cons, ih _ k (fun hm => hk (by simp [hm])), unsetApply]
    by_cases hc : dictContains (DEFAULT_SETTINGS root) k0 = true
    · rw [if_pos hc]
      exact dictGet_dictSet_other acc k0 k _ (fun he => hk (by simp [he]))
    · rw [if_neg hc]

theorem unsetFold_get_mem (root : String) (ks : List String) :
    ∀ (acc : List (String × PyVal)) (k : String), k ∈ ks →
      dictContains (DEFAULT_SETTINGS root) k = true →
      dictGet (ks.foldl (unsetApply root) acc) k = Option.some (defaultValOf root k) := by
  induction ks with
  | nil => intro acc k hm; simp at hm
  | cons k0 rest ih =>
    intro acc k hm hc
    rw [List.foldl_cons]
    by_cases hr : k ∈ rest
    · exact ih _ k hr hc
    · have hk0 : k = k0 := by
        rcases List.mem_cons.mp hm with h | h
        · exact h
        · exact absurd h hr
      rw [unsetFold_get_notmem root rest _ k hr, unsetApply, ← hk0, if_pos hc]
      exact dictGet_dictSet_same acc k _

theorem keysOf_unsetFold (root : String) (ks : List String) :
    ∀ (acc : List (String × PyVal)),
      (∀ k2, dictContains (DEFAULT_SETTINGS root) k2 = true → dictContains acc k2 = true) →
      keysOf (ks.foldl (unsetApply root) acc) = keysOf acc := by
  induction ks with
  | nil => intro acc _; rfl
  | cons k0 rest ih =>
    intro acc hinv
    rw [List.foldl_cons, unsetApply]
    by_cases hc : dictContains (DEFAULT_SETTINGS root) k0 = true
    · rw [if_pos hc]
      rw [ih _ (fun k2 hk2 => dictContains_dictSet acc k0 k2 _ (hinv k2 hk2))]
      exact keysOf_dictSet_mem acc k0 _ (hinv k0 hc)
    · rw [if_neg hc]
      exact ih acc hinv

theorem updFold_get_skip (home : Option String) (root : String)
    (us : List (String × PyVal)) :
    ∀ (acc : List (String × PyVal)) (k : String),
      dictContains (DEFAULT_SETTINGS root) k = false →
      dictGet (us.foldl (updateApply home root) acc) k = dictGet acc k := by
  induction us with
  | nil => intro acc k _; rfl
  | cons kv rest ih =>
    intro acc k hk
    rw [List.foldl_cons, ih _ k hk, updateApply]
    by_cases hc : dictContains (DEFAULT_SETTINGS root) kv.1 = true
    · rw [if_pos hc]
      have hne : k ≠ kv.1 := by
        intro he
        rw [he, hc] at hk
        cases hk
      exact dictGet_dictSet_other acc kv.1 k _ hne
    · rw [if_neg hc]

/-- C5: after `set_settings({"build_type": "Release"})` on any merged
settings state, a reload yields "Release" for build_type and every other
known key keeps its prior (merged) value; the persisted file holds
exactly the known key set; update keys outside the known set leave the
state unchanged, and unset keys are reset to their built-in defaults.
The two idempotence hypotheses hold of every real environment: values in
the file normalize stably (e.g. the home directory is not itself
tilde-relative) and the built-in defaults are already normalized (ROOT
is an absolute resolved path). -/
theorem claim_C5_settings_roundtrip (home : Option String) (root : String) (fs : SettingsFile)
    (Hd : ∀ k v, (k, v) ∈ _load_settings_file fs →
      _normalized_setting home k (_normalized_setting home k v) =
        _normalized_setting home k v)
    (Hdef : ∀ kv ∈ DEFAULT_SETTINGS root, _normalized_setting home kv.1 kv.2 = kv.2) :
    (dictGet (_merge_settings home root
        (set_settings home root [("build_type", PyVal.str "Release")] []
          (_merge_settings home root (_load_settings_file fs))).2) "build_type" =
      Option.some (PyVal.str "Release"))
    ∧ (∀ k, k ∈ keysOf (DEFAULT_SETTINGS root) → k ≠ "build_type" →
        dictGet (_merge_settings home root
          (set_settings home root [("build_type", PyVal.str "Release")] []
            (_merge_settings home root (_load_settings_file fs))).2) k =
        dictGet (_merge_settings home root (_load_settings_file fs)) k)
    ∧ (keysOf (set_settings home root [("build_type", PyVal.str "Release")] []
        (_merge_settings home root (_load_settings_file fs))).2 =
        keysOf (DEFAULT_SETTINGS root))
    ∧ (∀ (updates : List (String × PyVal)) (unset : List String) (k : String),
        dictContains (DEFAULT_SETTINGS root) k = false →
        dictGet (set_settings home root updates unset
          (_merge_settings home root (_load_settings_file fs))).1 k =
        dictGet (_merge_settings home root (_load_settings_file fs)) k)
    ∧ (∀ (unset : List String) (k : String), k ∈ unset →
        dictContains (DEFAULT_SETTINGS root) k = true →
        dictGet (set_settings home root [] unset
          (_merge_settings home root (_load_settings_file fs))).1 k =
        Option.some (defaultValOf root k)) := by
  have hkp : keysOf (_merge_settings home root (_load_settings_file fs)) =
      keysOf (DEFAULT_SETTINGS root) := keysOf_merge home root _
  have hnodup_def : (keysOf (DEFAULT_SETTINGS root)).Nodup := by
    rw [keysOf_defaults]
    decide
  have hnodup_prior : (keysOf (_merge_settings home root (_load_settings_file fs))).Nodup := by
    rw [hkp]
    exact hnodup_def
  have hcbt : dictContains (_merge_settings home root (_load_settings_file fs))
      "build_type" = true := by
    rw [dictGet_isSome_iff_mem, hkp, keysOf_defaults]
    decide
  have hset : set_settings home root [("build_type", PyVal.str "Release")] []
      (_merge_settings home root (_load_settings_file fs)) =
      (dictUpdate (_merge_settings home root (_load_settings_file fs))
        (dictSet (_merge_settings home root (_load_settings_file fs)) "build_type"
          (PyVal.str "Release")),
       save_settings root (dictUpdate (_merge_settings home root (_load_settings_file fs))
        (dictSet (_merge_settings home root (_load_settings_file fs)) "build_type"
          (PyVal.str "Release")))) := by
    rw [set_settings]
    simp only [List.foldl_nil, List.foldl_cons]
    rw [updateApply, if_pos (by rfl : dictContains (DEFAULT_SETTINGS root) "build_type" = true)]
    rfl
  have hkeys_set : keysOf (dictSet (_merge_settings home root (_load_settings_file fs))
      "build_type" (PyVal.str "Release")) =
      keysOf (_merge_settings home root (_load_settings_file fs)) :=
    keysOf_dictSet_mem _ _ _ hcbt
  have hnew_get : ∀ k, dictGet (dictUpdate (_merge_settings home root (_load_settings_file fs))
      (dictSet (_merge_settings home root (_load_settings_file fs)) "build_type"
        (PyVal.str "Release"))) k =
      dictGet (dictSet (_merge_settings home root (_load_settings_file fs)) "build_type"
        (PyVal.str "Release")) k := by
    intro k
    apply dictUpdate_self_get
    · rw [hkeys_set]
      exact hnodup_prior
    · exact hkeys_set
  have hreload : ∀ (s : List (String × PyVal)) (k : String) (dv : PyVal),
      dictGet (DEFAULT_SETTINGS root) k = Option.some dv →
      dictGet (_merge_settings home root (save_settings root s)) k =
        Option.some (_normalized_setting home k
          (match dictGet s k with | Option.some v => v | Option.none => dv)) := by
    intro s k dv hdv
    rw [_merge_settings, mergeFrom_get]
    rw [lastKnown_nodup home root _ k (by rw [keysOf_save]; exact hnodup_def)]
    rw [dictGet_save, hdv]
    have hck : dictContains (DEFAULT_SETTINGS root) k = true := by
      rw [dictContains, hdv]
      rfl
    simp [hck]
  refine ⟨?_, ?_, ?_, ?_, ?_⟩
  · rw [hset]
    rw [hreload _ "build_type" (PyVal.str "Debug") (by rfl)]
    rw [hnew_get "build_type", dictGet_dictSet_same]
    rfl
  · intro k hkmem hkbt
    rw [hset]
    rcases hdv : dictGet (DEFAULT_SETTINGS root) k with _ | dv
    · have : dictContains (DEFAULT_SETTINGS root) k = true :=
        (dictGet_isSome_iff_mem _ _).mpr hkmem
      rw [dictContains, hdv] at this
      cases this
    · rw [hreload _ k dv hdv]
      rw [hnew_get k, dictGet_dictSet_other _ _ _ _ hkbt]
      have hpk : dictGet (_merge_settings home root (_load_settings_file fs)) k =
          match lastKnown home root (_load_settings_file fs) k with
          | Option.some v => Option.some v
          | Option.none => dictGet (DEFAULT_SETTINGS root) k :=
        mergeFrom_get home root _ _ k
      rcases hlk : lastKnown home root (_load_settings_file fs) k with _ | v0
      · rw [hlk] at hpk
        simp only at hpk
        rw [hpk, hdv]
        have hmem : (k, dv) ∈ DEFAULT_SETTINGS root := dictGet_mem _ _ _ hdv
        have := Hdef (k, dv) hmem
        simp only at this
        rw [this]
      · rw [hlk] at hpk
        simp only at hpk
        rw [hpk]
        obtain ⟨v, hvmem, _, hv0⟩ := lastKnown_mem home root _ k v0 hlk
        rw [hv0, Hd k v hvmem, ← hv0]
  · rw [hset]
    exact keysOf_save root _
  · intro updates unset k hk
    have hprior_none : dictGet (_merge_settings home root (_load_settings_file fs)) k =
        Option.none := by
      apply dictGet_none_of_not_mem
      rw [hkp]
      intro hm
      rw [(dictGet_isSome_iff_mem _ _).mpr hm] at hk
      cases hk
    have hstep : dictGet (updates.foldl (updateApply home root)
        (unset.foldl (unsetApply root)
          (_merge_settings home root (_load_settings_file fs)))) k = Option.none := by
      rw [updFold_get_skip home root updates _ k hk, unsetFold_get_skip root unset _ k hk,
        hprior_none]
    rw [set_settings]
    simp only []
    rw [dictGet_dictUpdate, lastVal_none_of_get_none _ _ hstep, hprior_none]
  · intro unset k hm hc
    have hinv : ∀ k2, dictContains (DEFAULT_SETTINGS root) k2 = true →
        dictContains (_merge_settings home root (_load_settings_file fs)) k2 = true := by
      intro k2 hk2
      rw [dictGet_isSome_iff_mem, hkp]
      exact (dictGet_isSome_iff_mem _ _).mp hk2
    have hcurkeys : keysOf (unset.foldl (unsetApply root)
        (_merge_settings home root (_load_settings_file fs))) =
        keysOf (_merge_settings home root (_load_settings_file fs)) :=
      keysOf_unsetFold root unset _ hinv
    have hcur : dictGet (unset.foldl (unsetApply root)
        (_merge_settings home root (_load_settings_file fs))) k =
        Option.some (defaultValOf root k) :=
      unsetFold_get_mem root unset _ k hm hc
    rw [set_settings]
    simp only [List.foldl_nil]
    rw [dictGet_dictUpdate]
    rw [lastVal_eq_dictGet_of_nodup _ k (by rw [hcurkeys]; exact hnodup_prior), hcur]

/-- Witness for C5 at a concrete prior file holding build_type "Debug"
and qt_prefix "/opt/qt". -/
theorem claim_C5_settings_roundtrip_witness :
    (dictGet (_merge_settings Option.none "/repo"
        (set_settings Option.none "/repo" [("build_type", PyVal.str "Release")] []
          (_merge_settings Option.none "/repo" (_load_settings_file
            (SettingsFile.parsed (PyVal.dict
              [("build_type", PyVal.str "Debug"),
               ("qt_prefix", PyVal.str "/opt/qt")]))))).2) "build_type" =
      Option.some (PyVal.str "Release"))
    ∧ (dictGet (_merge_settings Option.none "/repo"
        (set_settings Option.none "/repo" [("build_type", PyVal.str "Release")] []
          (_merge_settings Option.none "/repo" (_load_settings_file
            (SettingsFile.parsed (PyVal.dict
              [("build_type", PyVal.str "Debug"),
               ("qt_prefix", PyVal.str "/opt/qt")]))))).2) "qt_prefix" =
      dictGet (_merge_settings Option.none "/repo" (_load_settings_file
        (SettingsFile.parsed (PyVal.dict
          [("build_type", PyVal.str "Debug"),
           ("qt_prefix", PyVal.str "/opt/qt")])))) "qt_prefix")
    ∧ keysOf (set_settings Option.none "/repo" [("build_type", PyVal.str "Release")] []
        (_merge_settings Option.none "/repo" (_load_settings_file
          (SettingsFile.parsed (PyVal.dict
            [("build_type", PyVal.str "Debug"),
             ("qt_prefix", PyVal.str "/opt/qt")]))))).2 =
        keysOf (DEFAULT_SETTINGS "/repo") := by
  have hd : ∀ (k : String) (v : PyVal), (k, v) ∈ _load_settings_file
      (SettingsFile.parsed (PyVal.dict
        [("build_type", PyVal.str "Debug"), ("qt_prefix", PyVal.str "/opt/qt")])) →
      _normalized_setting Option.none k (_normalized_setting Option.none k v) =
        _normalized_setting Option.none k v := by
    intro k v hm
    fin_cases hm <;> rfl
  have hdef : ∀ kv ∈ DEFAULT_SETTINGS "/repo",
      _normalized_setting Option.none kv.1 kv.2 = kv.2 := by
    intro kv hm
    fin_cases hm <;> rfl
  refine ⟨(claim_C5_settings_roundtrip Option.none "/repo" _ hd hdef).1,
    (claim_C5_settings_roundtrip Option.none "/repo" _ hd hdef).2.1 "qt_prefix"
      (by rw [keysOf_defaults]; decide) (by decide),
    (claim_C5_settings_roundtrip Option.none "/repo" _ hd hdef).2.2.1⟩

theorem pyStartsWith_slash_inv (s : String) (h : pyStartsWith s "/" = true) :
    ∃ t, s.data = '/' :: t := by
  have hd : ("/" : String).data = ['/'] := rfl
  rw [pyStartsWith, hd] at h
  cases hs : s.data with
  | nil =>
    rw [hs] at h
    cases h
  | cons c t =>
    rw [hs, isPrefixOfB] at h
    simp only [isPrefixOfB, Bool.and_true] at h
    exact ⟨t, by rw [(by simpa using h : '/' = c)]⟩

theorem pyIsAbs_append (r x : String) (h : pyIsAbs r = true) : pyIsAbs (r ++ x) = true := by
  obtain ⟨t, ht⟩ := pyStartsWith_slash_inv r h
  rw [pyIsAbs, pyStartsWith, String.data_append, ht]
  rfl

theorem pyPathRoot_abs (s : String) (h : pyIsAbs s = true) :
    pyIsAbs (pyPathRoot s) = true ∧ pyPathRoot s ≠ "" := by
  rw [pyPathRoot]
  by_cases h2 : (pyStartsWith s "//" && !pyStartsWith s "///") = true
  · rw [if_pos h2]
    exact ⟨rfl, by decide⟩
  · have h3 : pyStartsWith s "/" = true := h
    rw [if_neg h2, if_pos h3]
    exact ⟨rfl, by decide⟩

theorem pyExpanduser_root_ne (home : Option String) (root : String) (comps : List String)
    (h : root ≠ "") : pyExpanduser home root comps = (root, comps) := by
  cases home with
  | none => rfl
  | some hh =>
    cases comps with
    | nil => rfl
    | cons c rest =>
      rw [pyExpanduser, if_neg (fun hand => h hand.1)]

theorem pyPathUnparse_abs (root : String) (comps : List String) (h : pyIsAbs root = true) :
    pyIsAbs (pyPathUnparse root comps) = true := by
  have hne : root ≠ "" := by
    intro he
    rw [he] at h
    cases h
  rw [pyPathUnparse, if_neg (by simp [hne])]
  exact pyIsAbs_append root _ h

theorem pyStartsWith_tilde_inv (s : String) (h : pyStartsWith s "~/" = true) :
    ∃ t, s.data = '~' :: '/' :: t := by
  have hd : ("~/" : String).data = ['~', '/'] := rfl
  rw [pyStartsWith, hd] at h
  cases hs : s.data with
  | nil =>
    rw [hs] at h
    cases h
  | cons c t =>
    cases ht : t with
    | nil =>
      rw [hs, ht, isPrefixOfB] at h
      simp [isPrefixOfB] at h
    | cons c2 t2 =>
      rw [hs, ht, isPrefixOfB] at h
      simp only [isPrefixOfB, Bool.and_true, Bool.and_eq_true, beq_iff_eq] at h
      exact ⟨t2, by rw [h.1, h.2]⟩

theorem tilde_path_root (s : String) (t : List Char) (hdata : s.data = '~' :: '/' :: t) :
    pyPathRoot s = "" := by
  have hslash : pyStartsWith s "/" = false := by
    rcases hsw : pyStartsWith s "/" with _ | _
    · rfl
    · obtain ⟨t2, ht2⟩ := pyStartsWith_slash_inv s hsw
      rw [hdata] at ht2
      cases ht2
  have h2 : pyStartsWith s "//" = false := by
    rcases hsw : pyStartsWith s "//" with _ | _
    · rfl
    · have hd : ("//" : String).data = ['/', '/'] := rfl
      rw [pyStartsWith, hd, hdata, isPrefixOfB] at hsw
      simp at hsw
  rw [pyPathRoot, h2, hslash]
  rfl

theorem tilde_path_comps (s : String) (t : List Char) (hdata : s.data = '~' :: '/' :: t) :
    ∃ rest, pyPathComps s = "~" :: rest := by
  rw [pyPathComps, pySplit1, hdata]
  rw [List.splitOnP_cons]
  rw [if_neg (by decide)]
  rw [List.splitOnP_cons]
  rw [if_pos (by decide)]
  rw [List.modifyHead_cons]
  rw [List.map_cons, List.filter_cons]
  rw [if_pos (by decide)]
  exact ⟨_, rfl⟩

/-- C6 counterexample: a relative path value is stored unchanged by the
normalization — it is not made absolute. -/
theorem claim_C6_counterexample :
    _normalized_setting (Option.some "/home/user") "build_dir" (PyVal.str "relative") =
      PyVal.str "relative"
    ∧ pyIsAbs "relative" = false := by
  exact ⟨rfl, rfl⟩

/-- C6 (amended): for the path-valued keys and non-absent values the
stored value is the tilde-expanded string form of the supplied path; it
is an absolute path whenever the supplied value is already absolute, or
is home-relative (`~` or `~/...`) and the home directory is absolute —
but a relative value stays relative. -/
theorem claim_C6_path_normalization (home : Option String) (k : String) (v : PyVal)
    (hk : k = "build_dir" ∨ k = "qt_prefix" ∨ k = "download_qt_output_dir")
    (hv : v ≠ PyVal.none) :
    _normalized_setting home k v = PyVal.str (pyNormPath home (pyStr v))
    ∧ (pyIsAbs (pyStr v) = true → pyIsAbs (pyNormPath home (pyStr v)) = true)
    ∧ (∀ h, home = Option.some h → pyIsAbs h = true →
        (pyStr v = "~" ∨ pyStartsWith (pyStr v) "~/" = true) →
        pyIsAbs (pyNormPath home (pyStr v)) = true) := by
  refine ⟨?_, ?_, ?_⟩
  · rcases hk with hk | hk | hk <;> subst hk <;>
      cases v <;> first
      | exact absurd rfl hv
      | rfl
  · intro habs
    rw [pyNormPath]
    obtain ⟨hra, hrne⟩ := pyPathRoot_abs _ habs
    rw [pyExpanduser_root_ne home _ _ hrne]
    exact pyPathUnparse_abs _ _ hra
  · intro h hhome hhabs hshape
    subst hhome
    rw [pyNormPath]
    rcases hshape with hs | hs
    · rw [hs]
      have hroot : pyPathRoot "~" = "" := rfl
      have hcomps : pyPathComps "~" = ["~"] := rfl
      rw [hroot, hcomps, pyExpanduser, if_pos ⟨rfl, rfl⟩]
      exact pyPathUnparse_abs _ _ (pyPathRoot_abs h hhabs).1
    · obtain ⟨t, hdata⟩ := pyStartsWith_tilde_inv _ hs
      obtain ⟨rest, hcomps⟩ := tilde_path_comps _ t hdata
      rw [tilde_path_root _ t hdata, hcomps, pyExpanduser, if_pos ⟨rfl, rfl⟩]
      exact pyPathUnparse_abs _ _ (pyPathRoot_abs h hhabs).1

/-- Witness for C6 (amended) at an absolute and a home-relative value. -/
theorem claim_C6_path_normalization_witness :
    (_normalized_setting (Option.some "/home/user") "qt_prefix" (PyVal.str "/opt/qt") =
      PyVal.str (pyNormPath (Option.some "/home/user") "/opt/qt"))
    ∧ pyIsAbs (pyNormPath (Option.some "/home/user") "/opt/qt") = true
    ∧ pyIsAbs (pyNormPath (Option.some "/home/user") "~/qt") = true :=
  ⟨(claim_C6_path_normalization (Option.some "/home/user") "qt_prefix"
      (PyVal.str "/opt/qt") (Or.inr (Or.inl rfl)) (by intro h; cases h)).1,
   (claim_C6_path_normalization (Option.some "/home/user") "qt_prefix"
      (PyVal.str "/opt/qt") (Or.inr (Or.inl rfl)) (by intro h; cases h)).2.1 (by decide),
   (claim_C6_path_normalization (Option.some "/home/user") "qt_prefix"
      (PyVal.str "~/qt") (Or.inr (Or.inl rfl)) (by intro h; cases h)).2.2 "/home/user"
      rfl (by decide) (Or.inr (by decide))⟩
